import Mathlib

/-!
Mode dispatch and interactive session of `main.cpp`.

A shallow embedding of `src/main.cpp`: the extension classifiers `isVideoFile`
and `isImageFile`, the directory predicate `isFolder`, and `main` with its
interactive loop. A `std::string` is a Lean `String`; `size_t` values are
natural numbers below `2 ^ 64` and the one addition on them is reduced modulo
`2 ^ 64`. The inference engine `V5lite` (declared in `v5lite.h`) is a parameter
of the development, as are the arguments, the lines of standard input and the
answers of `stat`.
-/

namespace Trt

/-! ## Strings -/

/-- Number of values of `size_t` (64 bits). -/
def SIZE_MOD : Nat := 18446744073709551616

/-- The constant `std::string::npos`, the largest `size_t`. -/
def npos : Nat := SIZE_MOD - 1

/-- Index of the last element equal to `c`, if any. -/
def lastIndexOf (c : Char) : List Char → Option Nat
  | [] => none
  | x :: xs =>
    match lastIndexOf c xs with
    | some j => some (j + 1)
    | none => if x = c then some 0 else none

/-- The call `s.find_last_of(c)` for a one-character argument: the index of the
last occurrence of `c` in `s`, or `npos` when there is none. -/
def find_last_of (s : String) (c : Char) : Nat :=
  match lastIndexOf c s.data with
  | some i => i
  | none => npos

/-- The call `s.substr(pos)`: the elements from index `pos` to the end; it throws
`std::out_of_range` (here `none`) when `pos > s.size()`. -/
def substr (s : String) (pos : Nat) : Option String :=
  if pos > s.length then none else some ⟨s.data.drop pos⟩

/-- The extension computed by both classifiers:
`path.substr(path.find_last_of(".") + 1)`, the addition being on `size_t`. -/
def extension (path : String) : Option String :=
  substr path ((find_last_of path '.' + 1) % SIZE_MOD)

/-- The function `isVideoFile` of `main.cpp`; `none` stands for an exception
leaving the function. -/
def isVideoFile (path : String) : Option Bool :=
  match extension path with
  | none => none
  | some ext => some (ext == "mp4" || ext == "avi" || ext == "mkv" || ext == "mov")

/-- The function `isImageFile` of `main.cpp`; `none` stands for an exception
leaving the function. -/
def isImageFile (path : String) : Option Bool :=
  match extension path with
  | none => none
  | some ext => some (ext == "jpg" || ext == "jpeg" || ext == "png" || ext == "bmp")

/-! ## The environment of `main` -/

/-- The macro `S_IFDIR` of `<sys/stat.h>` (Linux encoding). -/
def S_IFDIR : Nat := 0o040000

/-- The macro `S_IFMT` of `<sys/stat.h>` (Linux encoding): the file-type bits. -/
def S_IFMT : Nat := 0o170000

/-- The function `isFolder` of `main.cpp`. The argument `stat` is the file system:
`stat path` is `some st_mode` when the system call succeeds (returns `0`) and
`none` when it fails. The integer `s.st_mode & S_IFDIR` is converted to `bool`,
that is compared with zero. -/
def isFolder (stat : String → Option Nat) (path : String) : Bool :=
  match stat path with
  | some st_mode => (st_mode &&& S_IFDIR) != 0
  | none => false

/-- The class `V5lite` (declared in `v5lite.h`) as `main` uses it, over the state
`σ` of the engine object. Every member is a function of the current state and
gives the new state; `construct` is the constructor `V5lite(configPath)`.
`none` is a call that does not return: it throws, and `main` has no handler.
The two functions whose value `main` prints return a `std::string`. -/
structure Engine (σ : Type) where
  construct : String → Option σ
  LoadEngine : σ → Option σ
  InferenceImage : σ → String → Option (String × σ)
  InferenceVideo : σ → String → Option (String × σ)
  InferenceFolder : σ → String → Option σ

/-- The statements of `main` that write a line to `std::cout`. -/
inductive Output where
  | usage
  | ready
  | folderBanner
  | videoBanner
  | imageBanner
  | reply (resPath : String)
  deriving DecidableEq

/-- The line a writing statement puts on standard output. -/
def Output.text : Output → String
  | .usage => "Usage: ./yolov5_trt [config_path] [input_path/webui]"
  | .ready => "READY"
  | .folderBanner => "Mode: Folder Inference"
  | .videoBanner => "Mode: Single Video Inference"
  | .imageBanner => "Mode: Single Image Inference"
  | .reply resPath => resPath

/-- What `main` does that can be observed from outside, one event per call or
statement. `getline` carries the line read, or `none` at the end of input. -/
inductive Event where
  | out (o : Output)
  | construct (configPath : String)
  | LoadEngine
  | InferenceImage (path : String)
  | InferenceVideo (path : String)
  | InferenceFolder (path : String)
  | getline (line : Option String)
  | stat (path : String)
  deriving DecidableEq

/-- The events of a part of `main` and whether control reached its end
(`false`: an exception left it). -/
structure Outcome where
  trace : List Event
  returned : Bool
  deriving DecidableEq

/-- Put an event in front of an outcome. -/
def Outcome.after (e : Event) (o : Outcome) : Outcome :=
  ⟨e :: o.trace, o.returned⟩

/-- A run of the program: its events and its exit code (`none` when the process
is ended by an exception that nothing catches). -/
structure Run where
  trace : List Event
  exit : Option Int
  deriving DecidableEq

/-- The loop `while (std::getline(std::cin, line))` of `main`, on the engine in
state `v` and the lines still to be read. -/
def webuiLoop {σ : Type} (eng : Engine σ) : σ → List String → Outcome
  | _, [] => ⟨[.getline none], true⟩
  | v, line :: rest =>
    Outcome.after (.getline (some line)) <|
      if line = "exit" then ⟨[], true⟩
      else if line.length = 0 then webuiLoop eng v rest
      else
        match isVideoFile line with
        | none => ⟨[], false⟩
        | some true =>
          Outcome.after (.InferenceVideo line) <|
            match eng.InferenceVideo v line with
            | none => ⟨[], false⟩
            | some (resPath, v') =>
              Outcome.after (.out (.reply resPath)) (webuiLoop eng v' rest)
        | some false =>
          Outcome.after (.InferenceImage line) <|
            match eng.InferenceImage v line with
            | none => ⟨[], false⟩
            | some (resPath, v') =>
              Outcome.after (.out (.reply resPath)) (webuiLoop eng v' rest)

/-- The branches of `main` after the engine is loaded (state `v`). -/
def dispatch {σ : Type} (eng : Engine σ) (stat : String → Option Nat)
    (v : σ) (inputPath : String) (stdin : List String) : Outcome :=
  if inputPath = "webui" then
    Outcome.after (.out .ready) (webuiLoop eng v stdin)
  else
    Outcome.after (.stat inputPath) <|
      if isFolder stat inputPath then
        Outcome.after (.out .folderBanner) <|
          Outcome.after (.InferenceFolder inputPath) <|
            match eng.InferenceFolder v inputPath with
            | none => ⟨[], false⟩
            | some _ => ⟨[], true⟩
      else
        match isVideoFile inputPath with
        | none => ⟨[], false⟩
        | some true =>
          Outcome.after (.out .videoBanner) <|
            Outcome.after (.InferenceVideo inputPath) <|
              match eng.InferenceVideo v inputPath with
              | none => ⟨[], false⟩
              | some _ => ⟨[], true⟩
        | some false =>
          Outcome.after (.out .imageBanner) <|
            Outcome.after (.InferenceImage inputPath) <|
              match eng.InferenceImage v inputPath with
              | none => ⟨[], false⟩
              | some _ => ⟨[], true⟩

/-- The function `main` of `main.cpp`: `argv` holds the program name and the
arguments (`argc` is its length), `stdin` the lines of standard input. -/
def main {σ : Type} (eng : Engine σ) (stat : String → Option Nat)
    (argv stdin : List String) : Run :=
  let argc := argv.length
  if argc < 3 then
    ⟨[.out .usage], some (-1)⟩
  else
    let configPath := argv.getD 1 ""
    let inputPath := argv.getD 2 ""
    match eng.construct configPath with
    | none => ⟨[.construct configPath], none⟩
    | some v0 =>
      match eng.LoadEngine v0 with
      | none => ⟨[.construct configPath, .LoadEngine], none⟩
      | some v =>
        let body := dispatch eng stat v inputPath stdin
        ⟨.construct configPath :: .LoadEngine :: body.trace,
          if body.returned then some 0 else none⟩

/-! ## Observations on a trace -/

/-- The lines written to standard output, in order. -/
def stdoutOf : List Event → List String
  | [] => []
  | .out o :: es => o.text :: stdoutOf es
  | _ :: es => stdoutOf es

/-- Whether the event is a call of an inference function of the engine. -/
def Event.isInference : Event → Bool
  | .InferenceImage _ => true
  | .InferenceVideo _ => true
  | .InferenceFolder _ => true
  | _ => false

/-- The inference calls made, in order. -/
def engineCalls (t : List Event) : List Event := t.filter Event.isInference

/-- Whether the event is a read of standard input. -/
def Event.isRead : Event → Bool
  | .getline _ => true
  | _ => false

/-- The trace without the reads of standard input. -/
def withoutReads (t : List Event) : List Event := t.filter (fun e => !e.isRead)

/-! ## The session as the specification words it -/

/-- The accepted requests of a session: the non-empty lines before the first
line equal to `exit` (all non-empty lines when there is none). -/
def accepted (lines : List String) : List String :=
  (lines.takeWhile (fun l => l ≠ "exit")).filter (fun l => l ≠ "")

/-- The inference call of the session for a request, as an event. -/
def sessionCall (line : String) : Event :=
  if isVideoFile line = some true then .InferenceVideo line else .InferenceImage line

/-- The engine function the session applies to a request. -/
def sessionInfer {σ : Type} (eng : Engine σ) (v : σ) (line : String) :
    Option (String × σ) :=
  if isVideoFile line = some true then eng.InferenceVideo v line
  else eng.InferenceImage v line

/-- The strings the engine returns when it is given the requests one after the
other, each call starting in the state the previous one left; `none` when one
of the calls does not return. -/
def answers {σ : Type} (eng : Engine σ) : σ → List String → Option (List String)
  | _, [] => some []
  | v, line :: rest =>
    match sessionInfer eng v line with
    | none => none
    | some (resPath, v') =>
      match answers eng v' rest with
      | none => none
      | some rs => some (resPath :: rs)

/-- The state the engine is left in when it has been given the requests one
after the other; `none` when one of the calls does not return. -/
def stateAfter {σ : Type} (eng : Engine σ) : σ → List String → Option σ
  | v, [] => some v
  | v, line :: rest =>
    match sessionInfer eng v line with
    | none => none
    | some (_, v') => stateAfter eng v' rest

/-- The dialogue of a session: each request's inference call followed by the
line that answers it. -/
def dialogue : List String → List String → List Event
  | line :: lines, r :: rs => sessionCall line :: .out (.reply r) :: dialogue lines rs
  | _, _ => []

/-- What the loop does with the rest of the input after a request line. -/
def afterRequest {σ : Type} (eng : Engine σ) (v : σ) (line : String)
    (rest : List String) : Outcome :=
  Outcome.after (sessionCall line) <|
    match sessionInfer eng v line with
    | none => ⟨[], false⟩
    | some (resPath, v') => Outcome.after (.out (.reply resPath)) (webuiLoop eng v' rest)

/-- The two outcomes have the same events, reads of standard input apart, and
they end the same way. -/
def SameButReads (a b : Outcome) : Prop :=
  withoutReads a.trace = withoutReads b.trace ∧ a.returned = b.returned

/-- Whether the event is the construction or the load of the engine. -/
def Event.isLifetime : Event → Bool
  | .construct _ => true
  | .LoadEngine => true
  | _ => false

/-- Whether the event can occur after the engine is loaded: it is neither the
usage line, nor the construction, nor the load of the engine. -/
def Event.inBody : Event → Bool
  | .out .usage => false
  | .construct _ => false
  | .LoadEngine => false
  | _ => true

/-- Whether the event can occur inside the loop: a read, a call of
`InferenceVideo` or `InferenceImage`, or a reply. -/
def Event.inLoop : Event → Bool
  | .getline _ => true
  | .InferenceImage _ => true
  | .InferenceVideo _ => true
  | .out (.reply _) => true
  | _ => false

/-- The extension as the specification words it: the substring after the last
`'.'` of the path, the whole path when it has no `'.'`. -/
def afterLastDot : List Char → List Char
  | [] => []
  | c :: cs => if '.' ∈ cs then afterLastDot cs else if c = '.' then cs else c :: cs

/-- The video extensions of the specification. -/
def videoWords : List String := ["mp4", "avi", "mkv", "mov"]

/-- The image extensions of the specification. -/
def imageWords : List String := ["jpg", "jpeg", "png", "bmp"]

/-! ## An engine and a file system for examples -/

/-- An engine whose state counts the inference calls; each result names the
call. -/
def countingEngine : Engine Nat where
  construct := fun _ => some 0
  LoadEngine := fun v => some v
  InferenceImage := fun v p => some ("img" ++ toString v ++ ":" ++ p, v + 1)
  InferenceVideo := fun v p => some ("vid" ++ toString v ++ ":" ++ p, v + 1)
  InferenceFolder := fun v _ => some (v + 1)

/-- An engine that cannot be constructed from `missing.yaml`, cannot be loaded
when constructed from `stale.yaml`, and otherwise behaves as `countingEngine`. -/
def fragileEngine : Engine Nat where
  construct := fun configPath =>
    if configPath = "missing.yaml" then none
    else if configPath = "stale.yaml" then some 1 else some 0
  LoadEngine := fun v => if v = 1 then none else some v
  InferenceImage := fun v p => some ("img" ++ toString v ++ ":" ++ p, v + 1)
  InferenceVideo := fun v p => some ("vid" ++ toString v ++ ":" ++ p, v + 1)
  InferenceFolder := fun v _ => some (v + 1)

/-- An engine whose `InferenceImage` throws on the path `corrupt.png` and that
otherwise behaves as `countingEngine`. -/
def brittleEngine : Engine Nat where
  construct := fun _ => some 0
  LoadEngine := fun v => some v
  InferenceImage := fun v p =>
    if p = "corrupt.png" then none else some ("img" ++ toString v ++ ":" ++ p, v + 1)
  InferenceVideo := fun v p => some ("vid" ++ toString v ++ ":" ++ p, v + 1)
  InferenceFolder := fun v _ => some (v + 1)

/-- A file system with three directories, `data`, `clips.mp4` and `webui`, and
one regular file, `a.png`. -/
def sampleStat (path : String) : Option Nat :=
  if path = "data" ∨ path = "clips.mp4" ∨ path = "webui" then some 0o040755
  else if path = "a.png" then some 0o100644
  else none

/-- A file system with a block device, `/dev/sda`, a socket, `/run/app.sock`, a
directory, `/tmp`, and a regular file, `/etc/hosts`. -/
def deviceStat (path : String) : Option Nat :=
  if path = "/dev/sda" then some 0o060660
  else if path = "/run/app.sock" then some 0o140755
  else if path = "/tmp" then some 0o041777
  else if path = "/etc/hosts" then some 0o100644
  else none

/-! ## Facts about the classifiers -/

theorem lastIndexOf_of_not_mem (c : Char) (l : List Char) (h : c ∉ l) :
    lastIndexOf c l = none := by
  induction l with
  | nil => rfl
  | cons x xs ih =>
    have hx : ¬ x = c := fun e => h (by simp [e])
    have hxs : c ∉ xs := fun e => h (by simp [e])
    simp [lastIndexOf, ih hxs, hx]

theorem lastIndexOf_append (c : Char) (pre suf : List Char) (h : c ∉ suf) :
    lastIndexOf c (pre ++ c :: suf) = some pre.length := by
  induction pre with
  | nil => simp [lastIndexOf, lastIndexOf_of_not_mem c suf h]
  | cons x xs ih => simp [lastIndexOf, ih]

theorem lastIndexOf_lt (c : Char) (l : List Char) (i : Nat)
    (h : lastIndexOf c l = some i) : i < l.length := by
  induction l generalizing i with
  | nil => simp [lastIndexOf] at h
  | cons x xs ih =>
    simp only [lastIndexOf] at h
    cases hr : lastIndexOf c xs with
    | some j =>
      rw [hr] at h
      simp only [Option.some.injEq] at h
      have := ih j hr
      simp only [List.length_cons]
      omega
    | none =>
      rw [hr] at h
      by_cases hx : x = c
      · simp only [hx, if_true, Option.some.injEq] at h
        simp only [List.length_cons]
        omega
      · simp [hx] at h

/-- The position handed to `substr` is never past the end of the string. -/
theorem extension_pos_le (path : String) :
    (find_last_of path '.' + 1) % SIZE_MOD ≤ path.length := by
  unfold find_last_of
  cases hr : lastIndexOf '.' path.data with
  | some i =>
    have hlt := lastIndexOf_lt '.' path.data i hr
    have hle : (i + 1) % SIZE_MOD ≤ i + 1 := Nat.mod_le _ _
    show (i + 1) % SIZE_MOD ≤ path.data.length
    omega
  | none =>
    show (npos + 1) % SIZE_MOD ≤ path.length
    have : (npos + 1) % SIZE_MOD = 0 := by decide
    omega

/-- The extension is always computed: `substr` never throws in the classifiers. -/
theorem extension_eq (path : String) :
    extension path =
      some ⟨path.data.drop ((find_last_of path '.' + 1) % SIZE_MOD)⟩ := by
  have h := extension_pos_le path
  unfold extension substr
  rw [if_neg (by omega)]

/-- A path without `'.'` is its own extension. -/
theorem extension_of_no_dot (path : String) (h : '.' ∉ path.data) :
    extension path = some path := by
  rw [extension_eq]
  have hf : find_last_of path '.' = npos := by
    unfold find_last_of
    rw [lastIndexOf_of_not_mem '.' path.data h]
  have h0 : (npos + 1) % SIZE_MOD = 0 := by decide
  rw [hf, h0]
  rfl

/-- The extension of a path made of `pre`, a `'.'` and a word `ext` without
`'.'`, is `ext`. -/
theorem extension_of_data (path : String) (pre ext : List Char) (hdot : '.' ∉ ext)
    (hpath : path.data = pre ++ '.' :: ext) (hlen : path.length < SIZE_MOD) :
    extension path = some ⟨ext⟩ := by
  rw [extension_eq]
  have hf : find_last_of path '.' = pre.length := by
    unfold find_last_of
    rw [hpath, lastIndexOf_append '.' pre ext hdot]
  have hl : path.length = pre.length + (ext.length + 1) := by
    show path.data.length = _
    rw [hpath, List.length_append, List.length_cons]
  have hmod : (pre.length + 1) % SIZE_MOD = pre.length + 1 :=
    Nat.mod_eq_of_lt (by omega)
  rw [hf, hmod, hpath]
  have hdrop : List.drop (pre.length + 1) (pre ++ '.' :: ext) = ext := by
    rw [List.drop_append]
    rfl
  rw [hdrop]

/-- The extension of `pre ++ suffix` when `suffix` is a `'.'` and a word without
`'.'`. -/
theorem extension_of_suffix (path pre : String) (ext : List Char) (hdot : '.' ∉ ext)
    (hpath : path = pre ++ ⟨'.' :: ext⟩) (hlen : path.length < SIZE_MOD) :
    extension path = some ⟨ext⟩ :=
  extension_of_data path pre.data ext hdot (by rw [hpath, String.data_append]) hlen

theorem isVideoFile_of_extension (path ext : String) (h : extension path = some ext) :
    isVideoFile path = some (ext == "mp4" || ext == "avi" || ext == "mkv" || ext == "mov") := by
  unfold isVideoFile
  rw [h]

theorem isImageFile_of_extension (path ext : String) (h : extension path = some ext) :
    isImageFile path = some (ext == "jpg" || ext == "jpeg" || ext == "png" || ext == "bmp") := by
  unfold isImageFile
  rw [h]

/-- The classifier `isVideoFile` always returns. -/
theorem isVideoFile_returns (path : String) : ∃ b, isVideoFile path = some b :=
  ⟨_, isVideoFile_of_extension path _ (extension_eq path)⟩

/-- The classifier `isImageFile` always returns. -/
theorem isImageFile_returns (path : String) : ∃ b, isImageFile path = some b :=
  ⟨_, isImageFile_of_extension path _ (extension_eq path)⟩

/-! ## The classifiers on paths with a known ending -/

/-- C3: a string (shorter than `2 ^ 64`, as every `std::string` is) that ends in
`.mp4`, `.avi`, `.mkv` or `.mov`, after any prefix, is classified as a video:
`isVideoFile` returns `true`. -/
theorem isVideoFile_of_video_suffix (path pre : String)
    (hend : path = pre ++ ".mp4" ∨ path = pre ++ ".avi" ∨ path = pre ++ ".mkv" ∨
      path = pre ++ ".mov")
    (hsize : path.length < SIZE_MOD) :
    isVideoFile path = some true := by
  rcases hend with h | h | h | h
  · rw [isVideoFile_of_extension path "mp4"
      (extension_of_suffix path pre "mp4".data (by decide) h hsize)]
    rfl
  · rw [isVideoFile_of_extension path "avi"
      (extension_of_suffix path pre "avi".data (by decide) h hsize)]
    rfl
  · rw [isVideoFile_of_extension path "mkv"
      (extension_of_suffix path pre "mkv".data (by decide) h hsize)]
    rfl
  · rw [isVideoFile_of_extension path "mov"
      (extension_of_suffix path pre "mov".data (by decide) h hsize)]
    rfl

/-- Witness of C3: the path `run.1/clip.mkv`, with two `'.'` characters. -/
theorem isVideoFile_of_video_suffix_witness :
    "run.1/clip.mkv".length < SIZE_MOD ∧ isVideoFile "run.1/clip.mkv" = some true :=
  ⟨by decide,
    isVideoFile_of_video_suffix "run.1/clip.mkv" "run.1/clip"
      (Or.inr (Or.inr (Or.inl (by decide)))) (by decide)⟩

/-- C4: a string (shorter than `2 ^ 64`) that ends in `.jpg`, `.jpeg`, `.png` or
`.bmp` is classified as an image and not as a video: `isImageFile` returns
`true` and `isVideoFile` returns `false`. -/
theorem isImageFile_of_image_suffix (path pre : String)
    (hend : path = pre ++ ".jpg" ∨ path = pre ++ ".jpeg" ∨ path = pre ++ ".png" ∨
      path = pre ++ ".bmp")
    (hsize : path.length < SIZE_MOD) :
    isImageFile path = some true ∧ isVideoFile path = some false := by
  rcases hend with h | h | h | h
  · have he := extension_of_suffix path pre "jpg".data (by decide) h hsize
    rw [isImageFile_of_extension path "jpg" he, isVideoFile_of_extension path "jpg" he]
    exact ⟨rfl, rfl⟩
  · have he := extension_of_suffix path pre "jpeg".data (by decide) h hsize
    rw [isImageFile_of_extension path "jpeg" he, isVideoFile_of_extension path "jpeg" he]
    exact ⟨rfl, rfl⟩
  · have he := extension_of_suffix path pre "png".data (by decide) h hsize
    rw [isImageFile_of_extension path "png" he, isVideoFile_of_extension path "png" he]
    exact ⟨rfl, rfl⟩
  · have he := extension_of_suffix path pre "bmp".data (by decide) h hsize
    rw [isImageFile_of_extension path "bmp" he, isVideoFile_of_extension path "bmp" he]
    exact ⟨rfl, rfl⟩

/-- Witness of C4: the path `shots/cat.v2.jpeg`. -/
theorem isImageFile_of_image_suffix_witness :
    "shots/cat.v2.jpeg".length < SIZE_MOD ∧
      isImageFile "shots/cat.v2.jpeg" = some true ∧
      isVideoFile "shots/cat.v2.jpeg" = some false :=
  ⟨by decide,
    isImageFile_of_image_suffix "shots/cat.v2.jpeg" "shots/cat.v2"
      (Or.inr (Or.inl (by decide))) (by decide)⟩

/-- Counterexample to C5 as stated: the path `mp4` has no `'.'`, so it is its own
extension, and `isVideoFile` returns `true` on it (as `isImageFile` does on
`png`). -/
theorem no_dot_not_always_rejected :
    ¬ ∀ path : String, '.' ∉ path.data →
      isVideoFile path = some false ∧ isImageFile path = some false := by
  intro h
  have h1 := (h "mp4" (by decide)).1
  exact absurd h1 (by decide)

/-- C5, amended: for a path without `'.'`, `find_last_of` returns `npos`,
`npos + 1` wraps to `0` and the extension is the whole string; `isVideoFile`
returns `true` exactly when the path is one of the words `mp4`, `avi`, `mkv`,
`mov`, and `isImageFile` exactly when it is one of `jpg`, `jpeg`, `png`, `bmp`;
on every other path without `'.'` both return `false`. -/
theorem classifiers_of_no_dot (path : String) (hdot : '.' ∉ path.data) :
    find_last_of path '.' = npos ∧ (npos + 1) % SIZE_MOD = 0 ∧
    extension path = some path ∧
    (isVideoFile path = some true ↔
      path = "mp4" ∨ path = "avi" ∨ path = "mkv" ∨ path = "mov") ∧
    (isImageFile path = some true ↔
      path = "jpg" ∨ path = "jpeg" ∨ path = "png" ∨ path = "bmp") ∧
    (path ∉ ["mp4", "avi", "mkv", "mov", "jpg", "jpeg", "png", "bmp"] →
      isVideoFile path = some false ∧ isImageFile path = some false) := by
  have he := extension_of_no_dot path hdot
  have hf : find_last_of path '.' = npos := by
    unfold find_last_of
    rw [lastIndexOf_of_not_mem '.' path.data hdot]
  refine ⟨hf, by decide, he, ?_, ?_, ?_⟩
  · rw [isVideoFile_of_extension path path he]
    simp [or_assoc]
  · rw [isImageFile_of_extension path path he]
    simp [or_assoc]
  · intro hw
    rw [isVideoFile_of_extension path path he, isImageFile_of_extension path path he]
    simp only [List.mem_cons, List.mem_singleton, List.not_mem_nil, or_false, not_or] at hw
    obtain ⟨h1, h2, h3, h4, h5, h6, h7, h8⟩ := hw
    simp [h1, h2, h3, h4, h5, h6, h7, h8]

/-- Witness of the amended C5: the path `README` is classified as neither. -/
theorem classifiers_of_no_dot_witness :
    '.' ∉ "README".data ∧
      isVideoFile "README" = some false ∧ isImageFile "README" = some false :=
  ⟨by decide, (classifiers_of_no_dot "README" (by decide)).2.2.2.2.2 (by decide)⟩

/-! ## The loop, one line at a time -/

@[simp]
theorem Outcome.after_trace (e : Event) (o : Outcome) :
    (Outcome.after e o).trace = e :: o.trace := rfl

@[simp]
theorem Outcome.after_returned (e : Event) (o : Outcome) :
    (Outcome.after e o).returned = o.returned := rfl

theorem length_eq_zero_iff (s : String) : s.length = 0 ↔ s = "" := by
  constructor
  · intro h
    have hd : s.data = [] := List.length_eq_zero.mp h
    exact String.ext hd
  · intro h
    rw [h]
    rfl

theorem webuiLoop_nil {σ : Type} (eng : Engine σ) (v : σ) :
    webuiLoop eng v [] = ⟨[.getline none], true⟩ := rfl

theorem webuiLoop_exit {σ : Type} (eng : Engine σ) (v : σ) (rest : List String) :
    webuiLoop eng v ("exit" :: rest) = ⟨[.getline (some "exit")], true⟩ := rfl

theorem webuiLoop_empty {σ : Type} (eng : Engine σ) (v : σ) (rest : List String) :
    webuiLoop eng v ("" :: rest) =
      Outcome.after (.getline (some "")) (webuiLoop eng v rest) := rfl

theorem webuiLoop_request {σ : Type} (eng : Engine σ) (v : σ) (line : String)
    (rest : List String) (hexit : line ≠ "exit") (hempty : line ≠ "") :
    webuiLoop eng v (line :: rest) =
      Outcome.after (.getline (some line)) (afterRequest eng v line rest) := by
  have hlen : ¬ line.length = 0 := fun h => hempty ((length_eq_zero_iff line).mp h)
  obtain ⟨b, hb⟩ := isVideoFile_returns line
  cases b with
  | true =>
    simp only [webuiLoop, afterRequest, sessionCall, sessionInfer, hb, if_neg hexit,
      if_neg hlen, if_true]
  | false =>
    have hne : ¬ (some false = some true) := by decide
    simp only [webuiLoop, afterRequest, sessionCall, sessionInfer, hb, if_neg hexit,
      if_neg hlen, if_neg hne]

theorem accepted_nil : accepted [] = [] := rfl

theorem accepted_exit (rest : List String) : accepted ("exit" :: rest) = [] := rfl

theorem accepted_empty (rest : List String) : accepted ("" :: rest) = accepted rest := rfl

theorem accepted_request (line : String) (rest : List String) (hexit : line ≠ "exit")
    (hempty : line ≠ "") : accepted (line :: rest) = line :: accepted rest := by
  simp [accepted, List.takeWhile_cons, hexit, hempty]

/-! ## Observations and the dialogue -/

theorem stdoutOf_withoutReads (t : List Event) : stdoutOf (withoutReads t) = stdoutOf t := by
  induction t with
  | nil => rfl
  | cons e es ih =>
    cases e <;> simp_all [withoutReads, List.filter_cons, Event.isRead, stdoutOf]

theorem engineCalls_withoutReads (t : List Event) :
    engineCalls (withoutReads t) = engineCalls t := by
  induction t with
  | nil => rfl
  | cons e es ih =>
    cases e <;>
      simp_all [withoutReads, engineCalls, List.filter_cons, Event.isRead, Event.isInference]

theorem sessionCall_isInference (line : String) : (sessionCall line).isInference = true := by
  unfold sessionCall
  split <;> rfl

theorem sessionCall_isRead (line : String) : (sessionCall line).isRead = false := by
  unfold sessionCall
  split <;> rfl

theorem stdoutOf_sessionCall_cons (line : String) (t : List Event) :
    stdoutOf (sessionCall line :: t) = stdoutOf t := by
  unfold sessionCall
  split <;> rfl

theorem isInference_out (o : Output) : (Event.out o).isInference = false := rfl

theorem isRead_out (o : Output) : (Event.out o).isRead = false := rfl

theorem isRead_getline (l : Option String) : (Event.getline l).isRead = true := rfl

theorem answers_cons_none {σ : Type} (eng : Engine σ) (v : σ) (line : String)
    (rest : List String) (hi : sessionInfer eng v line = none) :
    answers eng v (line :: rest) = none := by
  simp only [answers, hi]

theorem answers_cons_some {σ : Type} (eng : Engine σ) (v v' : σ) (line r : String)
    (rest : List String) (hi : sessionInfer eng v line = some (r, v')) :
    answers eng v (line :: rest) = (answers eng v' rest).map (fun rs => r :: rs) := by
  simp only [answers, hi]
  cases answers eng v' rest <;> rfl

/-- The answers to a list of requests: a first answer `r` and the answers to the
other requests from the state the first call left. -/
theorem answers_cons_eq_some {σ : Type} (eng : Engine σ) (v : σ) (line : String)
    (rest rs : List String) (h : answers eng v (line :: rest) = some rs) :
    ∃ r v' rs', sessionInfer eng v line = some (r, v') ∧
      answers eng v' rest = some rs' ∧ rs = r :: rs' := by
  cases hi : sessionInfer eng v line with
  | none => rw [answers_cons_none eng v line rest hi] at h; simp at h
  | some p =>
    obtain ⟨r, v'⟩ := p
    rw [answers_cons_some eng v v' line r rest hi] at h
    cases ha : answers eng v' rest with
    | none => rw [ha] at h; simp at h
    | some rs' =>
      rw [ha] at h
      simp only [Option.map_some', Option.some.injEq] at h
      exact ⟨r, v', rs', rfl, ha, h.symm⟩

theorem answers_length {σ : Type} (eng : Engine σ) (v : σ) (reqs rs : List String)
    (h : answers eng v reqs = some rs) : rs.length = reqs.length := by
  induction reqs generalizing v rs with
  | nil =>
    simp only [answers, Option.some.injEq] at h
    rw [← h]
  | cons line rest ih =>
    obtain ⟨r, v', rs', _, ha, hrs⟩ := answers_cons_eq_some eng v line rest rs h
    rw [hrs, List.length_cons, List.length_cons, ih v' rs' ha]

theorem stdoutOf_dialogue (reqs rs : List String) (h : rs.length = reqs.length) :
    stdoutOf (dialogue reqs rs) = rs := by
  induction reqs generalizing rs with
  | nil =>
    cases rs with
    | nil => rfl
    | cons r rs => simp at h
  | cons line rest ih =>
    cases rs with
    | nil => simp at h
    | cons r rs =>
      simp only [List.length_cons, Nat.add_right_cancel_iff] at h
      simp only [dialogue, stdoutOf_sessionCall_cons, stdoutOf, Output.text, ih rs h]

theorem engineCalls_dialogue (reqs rs : List String) (h : rs.length = reqs.length) :
    engineCalls (dialogue reqs rs) = reqs.map sessionCall := by
  induction reqs generalizing rs with
  | nil =>
    cases rs with
    | nil => rfl
    | cons r rs => simp at h
  | cons line rest ih =>
    cases rs with
    | nil => simp at h
    | cons r rs =>
      simp only [List.length_cons, Nat.add_right_cancel_iff] at h
      have := ih rs h
      simp only [engineCalls] at this
      simp [dialogue, engineCalls, List.filter_cons, sessionCall_isInference,
        isInference_out, this]

/-- When the engine answers every accepted request, the loop returns and, reads
apart, its trace is the dialogue of the accepted requests with their answers. -/
theorem webuiLoop_dialogue {σ : Type} (eng : Engine σ) (v : σ) (lines rs : List String)
    (h : answers eng v (accepted lines) = some rs) :
    (webuiLoop eng v lines).returned = true ∧
      withoutReads (webuiLoop eng v lines).trace = dialogue (accepted lines) rs := by
  induction lines generalizing v rs with
  | nil =>
    simp only [accepted_nil, answers, Option.some.injEq] at h
    subst h
    exact ⟨rfl, rfl⟩
  | cons line rest ih =>
    by_cases hexit : line = "exit"
    · subst hexit
      simp only [accepted_exit, answers, Option.some.injEq] at h
      subst h
      exact ⟨rfl, rfl⟩
    · by_cases hempty : line = ""
      · subst hempty
        rw [accepted_empty] at h ⊢
        rw [webuiLoop_empty]
        have := ih v rs h
        simpa [withoutReads, List.filter_cons, Event.isRead] using this
      · rw [accepted_request line rest hexit hempty] at h ⊢
        rw [webuiLoop_request eng v line rest hexit hempty]
        obtain ⟨r, v', rs', hi, ha, hrs⟩ :=
          answers_cons_eq_some eng v line (accepted rest) rs h
        subst hrs
        obtain ⟨h1, h2⟩ := ih v' rs' ha
        simp only [withoutReads] at h2
        simp only [afterRequest, hi]
        refine ⟨by simpa using h1, ?_⟩
        simp [withoutReads, List.filter_cons, isRead_getline, sessionCall_isRead,
          isRead_out, dialogue, h2]

/-! ## Runs with two arguments -/

/-- A run with two arguments whose engine is constructed and loaded. -/
theorem main_loaded {σ : Type} (eng : Engine σ) (stat : String → Option Nat)
    (prog configPath inputPath : String) (more stdin : List String) (v0 v : σ)
    (hc : eng.construct configPath = some v0) (hl : eng.LoadEngine v0 = some v) :
    main eng stat (prog :: configPath :: inputPath :: more) stdin =
      ⟨.construct configPath :: .LoadEngine :: (dispatch eng stat v inputPath stdin).trace,
        if (dispatch eng stat v inputPath stdin).returned then some 0 else none⟩ := by
  have hargc : ¬ (prog :: configPath :: inputPath :: more).length < 3 := by
    simp only [List.length_cons]
    omega
  simp only [main, if_neg hargc]
  show (match eng.construct configPath with
    | none => _
    | some v0 => _) = _
  rw [hc]
  show (match eng.LoadEngine v0 with
    | none => _
    | some v => _) = _
  rw [hl]
  rfl

theorem dispatch_webui {σ : Type} (eng : Engine σ) (stat : String → Option Nat)
    (v : σ) (stdin : List String) :
    dispatch eng stat v "webui" stdin = Outcome.after (.out .ready) (webuiLoop eng v stdin) :=
  rfl

theorem main_construct_fails {σ : Type} (eng : Engine σ) (stat : String → Option Nat)
    (prog configPath inputPath : String) (more stdin : List String)
    (hc : eng.construct configPath = none) :
    main eng stat (prog :: configPath :: inputPath :: more) stdin =
      ⟨[.construct configPath], none⟩ := by
  have hargc : ¬ (prog :: configPath :: inputPath :: more).length < 3 := by
    simp only [List.length_cons]
    omega
  simp only [main, if_neg hargc]
  show (match eng.construct configPath with
    | none => _
    | some v0 => _) = _
  rw [hc]
  rfl

theorem main_load_fails {σ : Type} (eng : Engine σ) (stat : String → Option Nat)
    (prog configPath inputPath : String) (more stdin : List String) (v0 : σ)
    (hc : eng.construct configPath = some v0) (hl : eng.LoadEngine v0 = none) :
    main eng stat (prog :: configPath :: inputPath :: more) stdin =
      ⟨[.construct configPath, .LoadEngine], none⟩ := by
  have hargc : ¬ (prog :: configPath :: inputPath :: more).length < 3 := by
    simp only [List.length_cons]
    omega
  simp only [main, if_neg hargc]
  show (match eng.construct configPath with
    | none => _
    | some v0 => _) = _
  rw [hc]
  show (match eng.LoadEngine v0 with
    | none => _
    | some v => _) = _
  rw [hl]
  rfl

/-- The exit code of a session whose engine answers every accepted request. -/
theorem webui_exit_zero {σ : Type} (eng : Engine σ) (stat : String → Option Nat)
    (prog configPath : String) (more stdin : List String) (v0 v : σ) (rs : List String)
    (hc : eng.construct configPath = some v0) (hl : eng.LoadEngine v0 = some v)
    (hrs : answers eng v (accepted stdin) = some rs) :
    (main eng stat (prog :: configPath :: "webui" :: more) stdin).exit = some 0 := by
  rw [main_loaded eng stat prog configPath "webui" more stdin v0 v hc hl, dispatch_webui]
  simp only [Outcome.after_returned, (webuiLoop_dialogue eng v stdin rs hrs).1, if_true]

/-! ## Two outcomes that differ only in what was read -/

theorem SameButReads.after (e : Event) (a b : Outcome) (h : SameButReads a b) :
    SameButReads (Outcome.after e a) (Outcome.after e b) := by
  obtain ⟨h1, h2⟩ := h
  simp only [withoutReads] at h1
  refine ⟨?_, h2⟩
  simp only [withoutReads, Outcome.after_trace, List.filter_cons, h1]

theorem SameButReads.read_left (l : Option String) (a b : Outcome) (h : SameButReads a b) :
    SameButReads (Outcome.after (.getline l) a) b := by
  obtain ⟨h1, h2⟩ := h
  simp only [withoutReads] at h1
  refine ⟨?_, h2⟩
  simp [withoutReads, List.filter_cons, isRead_getline, h1]

theorem SameButReads.afterRequest {σ : Type} (eng : Engine σ) (v : σ) (line : String)
    (l1 l2 : List String)
    (h : ∀ v' : σ, SameButReads (webuiLoop eng v' l1) (webuiLoop eng v' l2)) :
    SameButReads (afterRequest eng v line l1) (afterRequest eng v line l2) := by
  unfold Trt.afterRequest
  apply SameButReads.after
  cases sessionInfer eng v line with
  | none => exact ⟨rfl, rfl⟩
  | some p =>
    obtain ⟨r, v'⟩ := p
    exact SameButReads.after _ _ _ (h v')

/-- Lines after `exit` do not matter. -/
theorem webuiLoop_exit_rest {σ : Type} (eng : Engine σ) (v : σ) (pre rest : List String) :
    webuiLoop eng v (pre ++ "exit" :: rest) = webuiLoop eng v (pre ++ ["exit"]) := by
  induction pre generalizing v with
  | nil => rfl
  | cons line pre ih =>
    by_cases hexit : line = "exit"
    · subst hexit
      rfl
    · by_cases hempty : line = ""
      · subst hempty
        simp only [List.cons_append, webuiLoop_empty, ih]
      · simp only [List.cons_append, webuiLoop_request eng v line _ hexit hempty]
        unfold afterRequest
        cases sessionInfer eng v line with
        | none => rfl
        | some p =>
          obtain ⟨r, v'⟩ := p
          simp only [ih]

/-- Reading `exit` ends the loop as the end of input does. -/
theorem webuiLoop_exit_eof {σ : Type} (eng : Engine σ) (v : σ) (pre rest : List String)
    (hpre : ∀ l ∈ pre, l ≠ "exit") :
    SameButReads (webuiLoop eng v (pre ++ "exit" :: rest)) (webuiLoop eng v pre) := by
  induction pre generalizing v with
  | nil => exact ⟨rfl, rfl⟩
  | cons line pre ih =>
    have hexit : line ≠ "exit" := hpre line (by simp)
    have hpre' : ∀ l ∈ pre, l ≠ "exit" := fun l hl => hpre l (by simp [hl])
    by_cases hempty : line = ""
    · subst hempty
      simp only [List.cons_append, webuiLoop_empty]
      exact SameButReads.after _ _ _ (ih v hpre')
    · simp only [List.cons_append, webuiLoop_request eng v line _ hexit hempty]
      exact SameButReads.after _ _ _
        (SameButReads.afterRequest eng v line _ _ (fun v' => ih v' hpre'))

/-- An empty line changes nothing but the reads. -/
theorem webuiLoop_skip_empty {σ : Type} (eng : Engine σ) (v : σ) (a b : List String) :
    SameButReads (webuiLoop eng v (a ++ "" :: b)) (webuiLoop eng v (a ++ b)) := by
  induction a generalizing v with
  | nil =>
    simp only [List.nil_append, webuiLoop_empty]
    exact SameButReads.read_left _ _ _ ⟨rfl, rfl⟩
  | cons line a ih =>
    by_cases hexit : line = "exit"
    · subst hexit
      exact ⟨rfl, rfl⟩
    · by_cases hempty : line = ""
      · subst hempty
        simp only [List.cons_append, webuiLoop_empty]
        exact SameButReads.after _ _ _ (ih v)
      · simp only [List.cons_append, webuiLoop_request eng v line _ hexit hempty]
        exact SameButReads.after _ _ _
          (SameButReads.afterRequest eng v line _ _ (fun v' => ih v'))

theorem accepted_append_exit (pre rest : List String) (hpre : ∀ l ∈ pre, l ≠ "exit") :
    accepted (pre ++ "exit" :: rest) = accepted pre := by
  induction pre with
  | nil => rfl
  | cons line pre ih =>
    have hexit : line ≠ "exit" := hpre line (by simp)
    have hpre' : ∀ l ∈ pre, l ≠ "exit" := fun l hl => hpre l (by simp [hl])
    by_cases hempty : line = ""
    · subst hempty
      simp only [List.cons_append, accepted_empty, ih hpre']
    · simp only [List.cons_append, accepted_request line _ hexit hempty, ih hpre']

/-- Two sessions of one program whose loops differ only in their reads give the
same output, the same inference calls and the same exit code. -/
theorem main_webui_same {σ : Type} (eng : Engine σ) (stat : String → Option Nat)
    (prog configPath : String) (more l1 l2 : List String)
    (h : ∀ v : σ, SameButReads (webuiLoop eng v l1) (webuiLoop eng v l2)) :
    withoutReads (main eng stat (prog :: configPath :: "webui" :: more) l1).trace
        = withoutReads (main eng stat (prog :: configPath :: "webui" :: more) l2).trace ∧
      (main eng stat (prog :: configPath :: "webui" :: more) l1).exit
        = (main eng stat (prog :: configPath :: "webui" :: more) l2).exit := by
  cases hc : eng.construct configPath with
  | none =>
    rw [main_construct_fails eng stat prog configPath "webui" more l1 hc,
      main_construct_fails eng stat prog configPath "webui" more l2 hc]
    exact ⟨rfl, rfl⟩
  | some v0 =>
    cases hl : eng.LoadEngine v0 with
    | none =>
      rw [main_load_fails eng stat prog configPath "webui" more l1 v0 hc hl,
        main_load_fails eng stat prog configPath "webui" more l2 v0 hc hl]
      exact ⟨rfl, rfl⟩
    | some v =>
      rw [main_loaded eng stat prog configPath "webui" more l1 v0 v hc hl,
        main_loaded eng stat prog configPath "webui" more l2 v0 v hc hl,
        dispatch_webui, dispatch_webui]
      obtain ⟨h1, h2⟩ := h v
      simp only [withoutReads] at h1
      refine ⟨?_, ?_⟩
      · simp only [withoutReads, Outcome.after_trace, List.filter_cons, h1]
      · simp only [Outcome.after_returned, h2]

/-! ## The events of the branches -/

theorem isLifetime_of_inBody (e : Event) (h : e.inBody = true) : e.isLifetime = false := by
  cases e with
  | construct c => simp [Event.inBody] at h
  | LoadEngine => simp [Event.inBody] at h
  | out o => rfl
  | InferenceImage p => rfl
  | InferenceVideo p => rfl
  | InferenceFolder p => rfl
  | getline l => rfl
  | stat p => rfl

theorem sessionCall_inLoop (line : String) : (sessionCall line).inLoop = true := by
  unfold sessionCall
  split <;> rfl

theorem webuiLoop_inLoop {σ : Type} (eng : Engine σ) (v : σ) (lines : List String) :
    ∀ e ∈ (webuiLoop eng v lines).trace, e.inLoop = true := by
  induction lines generalizing v with
  | nil =>
    intro e he
    simp only [webuiLoop_nil, List.mem_singleton] at he
    rw [he]
    rfl
  | cons line rest ih =>
    by_cases hexit : line = "exit"
    · subst hexit
      intro e he
      simp only [webuiLoop_exit, List.mem_singleton] at he
      rw [he]
      rfl
    · by_cases hempty : line = ""
      · subst hempty
        intro e he
        simp only [webuiLoop_empty, Outcome.after_trace, List.mem_cons] at he
        rcases he with he | he
        · rw [he]
          rfl
        · exact ih v e he
      · intro e he
        rw [webuiLoop_request eng v line rest hexit hempty] at he
        unfold afterRequest at he
        cases hi : sessionInfer eng v line with
        | none =>
          simp only [hi, Outcome.after_trace, List.mem_cons, List.not_mem_nil, or_false] at he
          rcases he with he | he
          · rw [he]
            rfl
          · rw [he]
            exact sessionCall_inLoop line
        | some p =>
          obtain ⟨r, v'⟩ := p
          simp only [hi, Outcome.after_trace, List.mem_cons] at he
          rcases he with he | he | he | he
          · rw [he]
            rfl
          · rw [he]
            exact sessionCall_inLoop line
          · rw [he]
            rfl
          · exact ih v' e he

theorem inBody_of_inLoop (e : Event) (h : e.inLoop = true) : e.inBody = true := by
  cases e with
  | out o => cases o <;> first | rfl | simp [Event.inLoop] at h
  | construct c => simp [Event.inLoop] at h
  | LoadEngine => simp [Event.inLoop] at h
  | InferenceImage p => rfl
  | InferenceVideo p => rfl
  | InferenceFolder p => rfl
  | getline l => rfl
  | stat p => rfl

theorem dispatch_folder {σ : Type} (eng : Engine σ) (stat : String → Option Nat)
    (v : σ) (inputPath : String) (stdin : List String)
    (h1 : inputPath ≠ "webui") (h2 : isFolder stat inputPath = true) :
    (dispatch eng stat v inputPath stdin).trace =
      [.stat inputPath, .out .folderBanner, .InferenceFolder inputPath] := by
  unfold dispatch
  rw [if_neg h1, if_pos h2]
  cases eng.InferenceFolder v inputPath <;> rfl

theorem dispatch_video {σ : Type} (eng : Engine σ) (stat : String → Option Nat)
    (v : σ) (inputPath : String) (stdin : List String)
    (h1 : inputPath ≠ "webui") (h2 : isFolder stat inputPath = false)
    (h3 : isVideoFile inputPath = some true) :
    (dispatch eng stat v inputPath stdin).trace =
      [.stat inputPath, .out .videoBanner, .InferenceVideo inputPath] := by
  have h2' : ¬ isFolder stat inputPath = true := by simp [h2]
  unfold dispatch
  rw [if_neg h1, if_neg h2']
  simp only [h3]
  cases eng.InferenceVideo v inputPath <;> rfl

theorem dispatch_image {σ : Type} (eng : Engine σ) (stat : String → Option Nat)
    (v : σ) (inputPath : String) (stdin : List String)
    (h1 : inputPath ≠ "webui") (h2 : isFolder stat inputPath = false)
    (h3 : isVideoFile inputPath ≠ some true) :
    (dispatch eng stat v inputPath stdin).trace =
      [.stat inputPath, .out .imageBanner, .InferenceImage inputPath] := by
  have h2' : ¬ isFolder stat inputPath = true := by simp [h2]
  obtain ⟨b, hb⟩ := isVideoFile_returns inputPath
  have hb' : isVideoFile inputPath = some false := by
    cases b with
    | true => exact absurd hb h3
    | false => exact hb
  unfold dispatch
  rw [if_neg h1, if_neg h2']
  simp only [hb']
  cases eng.InferenceImage v inputPath <;> rfl

/-- After the load, the usage line is not written and the engine is neither
constructed nor loaded again. -/
theorem dispatch_inBody {σ : Type} (eng : Engine σ) (stat : String → Option Nat)
    (v : σ) (inputPath : String) (stdin : List String) :
    ∀ e ∈ (dispatch eng stat v inputPath stdin).trace, e.inBody = true := by
  intro e he
  by_cases h1 : inputPath = "webui"
  · subst h1
    simp only [dispatch_webui, Outcome.after_trace, List.mem_cons] at he
    rcases he with he | he
    · rw [he]
      rfl
    · exact inBody_of_inLoop e (webuiLoop_inLoop eng v stdin e he)
  · cases h2 : isFolder stat inputPath with
    | true =>
      rw [dispatch_folder eng stat v inputPath stdin h1 h2] at he
      simp only [List.mem_cons, List.mem_singleton, List.not_mem_nil, or_false] at he
      rcases he with he | he | he <;> (rw [he]; rfl)
    | false =>
      by_cases h3 : isVideoFile inputPath = some true
      · rw [dispatch_video eng stat v inputPath stdin h1 h2 h3] at he
        simp only [List.mem_cons, List.mem_singleton, List.not_mem_nil, or_false] at he
        rcases he with he | he | he <;> (rw [he]; rfl)
      · rw [dispatch_image eng stat v inputPath stdin h1 h2 h3] at he
        simp only [List.mem_cons, List.mem_singleton, List.not_mem_nil, or_false] at he
        rcases he with he | he | he <;> (rw [he]; rfl)

/-- Two sessions of one program whose loops are equal are equal. -/
theorem main_webui_congr {σ : Type} (eng : Engine σ) (stat : String → Option Nat)
    (prog configPath : String) (more l1 l2 : List String)
    (h : ∀ v : σ, webuiLoop eng v l1 = webuiLoop eng v l2) :
    main eng stat (prog :: configPath :: "webui" :: more) l1
      = main eng stat (prog :: configPath :: "webui" :: more) l2 := by
  cases hc : eng.construct configPath with
  | none =>
    rw [main_construct_fails eng stat prog configPath "webui" more l1 hc,
      main_construct_fails eng stat prog configPath "webui" more l2 hc]
  | some v0 =>
    cases hl : eng.LoadEngine v0 with
    | none =>
      rw [main_load_fails eng stat prog configPath "webui" more l1 v0 hc hl,
        main_load_fails eng stat prog configPath "webui" more l2 v0 hc hl]
    | some v =>
      rw [main_loaded eng stat prog configPath "webui" more l1 v0 v hc hl,
        main_loaded eng stat prog configPath "webui" more l2 v0 v hc hl,
        dispatch_webui, dispatch_webui, h v]

/-- The run of a session whose engine answers every accepted request, reads
apart. -/
theorem webui_withoutReads {σ : Type} (eng : Engine σ) (stat : String → Option Nat)
    (prog configPath : String) (more stdin : List String) (v0 v : σ) (rs : List String)
    (hc : eng.construct configPath = some v0) (hl : eng.LoadEngine v0 = some v)
    (hrs : answers eng v (accepted stdin) = some rs) :
    withoutReads (main eng stat (prog :: configPath :: "webui" :: more) stdin).trace
      = .construct configPath :: .LoadEngine :: .out .ready ::
          dialogue (accepted stdin) rs := by
  obtain ⟨_, hdia⟩ := webuiLoop_dialogue eng v stdin rs hrs
  rw [main_loaded eng stat prog configPath "webui" more stdin v0 v hc hl, dispatch_webui]
  simp only [withoutReads] at hdia
  simp only [withoutReads, Outcome.after_trace]
  rw [← hdia]
  rfl

/-- The output of a session whose engine answers every accepted request. -/
theorem webui_stdout {σ : Type} (eng : Engine σ) (stat : String → Option Nat)
    (prog configPath : String) (more stdin : List String) (v0 v : σ) (rs : List String)
    (hc : eng.construct configPath = some v0) (hl : eng.LoadEngine v0 = some v)
    (hrs : answers eng v (accepted stdin) = some rs) :
    stdoutOf (main eng stat (prog :: configPath :: "webui" :: more) stdin).trace
      = "READY" :: rs := by
  rw [← stdoutOf_withoutReads,
    webui_withoutReads eng stat prog configPath more stdin v0 v rs hc hl hrs]
  show "READY" :: stdoutOf (dialogue (accepted stdin) rs) = _
  rw [stdoutOf_dialogue _ _ (answers_length eng v (accepted stdin) rs hrs)]

/-- C1: interactive session output. In a run with target `webui` whose engine is
constructed and loaded and answers the accepted requests (the non-empty lines
before the first `exit`) with the strings `rs`, standard output is exactly
`READY` followed by `rs`, one reply per accepted request; the inference calls are
exactly one per accepted request, in input order (a path sent twice is inferred
twice); and, reads apart, the run is the construction, the load, `READY`, then
each request's call followed at once by its reply, and nothing else. -/
theorem webui_session_output {σ : Type} (eng : Engine σ) (stat : String → Option Nat)
    (prog configPath : String) (more stdin : List String) (v0 v : σ) (rs : List String)
    (hc : eng.construct configPath = some v0) (hl : eng.LoadEngine v0 = some v)
    (hrs : answers eng v (accepted stdin) = some rs) :
    stdoutOf (main eng stat (prog :: configPath :: "webui" :: more) stdin).trace
        = "READY" :: rs ∧
      rs.length = (accepted stdin).length ∧
      engineCalls (main eng stat (prog :: configPath :: "webui" :: more) stdin).trace
        = (accepted stdin).map sessionCall ∧
      withoutReads (main eng stat (prog :: configPath :: "webui" :: more) stdin).trace
        = .construct configPath :: .LoadEngine :: .out .ready ::
            dialogue (accepted stdin) rs ∧
      (main eng stat (prog :: configPath :: "webui" :: more) stdin).exit = some 0 := by
  have hlen := answers_length eng v (accepted stdin) rs hrs
  have hwr := webui_withoutReads eng stat prog configPath more stdin v0 v rs hc hl hrs
  refine ⟨webui_stdout eng stat prog configPath more stdin v0 v rs hc hl hrs, hlen, ?_,
    hwr, webui_exit_zero eng stat prog configPath more stdin v0 v rs hc hl hrs⟩
  rw [← engineCalls_withoutReads, hwr]
  show engineCalls (dialogue (accepted stdin) rs) = _
  rw [engineCalls_dialogue _ _ hlen]

/-- Witness of C1: a session that sends `a.png` twice, an empty line, a video and
`exit`, with a line after `exit`. -/
theorem webui_session_output_witness :
    stdoutOf (main countingEngine sampleStat ["trt", "cfg.yaml", "webui"]
        ["a.png", "", "a.png", "v.mp4", "exit", "z.png"]).trace
        = ["READY", "img0:a.png", "img1:a.png", "vid2:v.mp4"] ∧
      ["img0:a.png", "img1:a.png", "vid2:v.mp4"].length
        = (accepted ["a.png", "", "a.png", "v.mp4", "exit", "z.png"]).length ∧
      engineCalls (main countingEngine sampleStat ["trt", "cfg.yaml", "webui"]
        ["a.png", "", "a.png", "v.mp4", "exit", "z.png"]).trace
        = (accepted ["a.png", "", "a.png", "v.mp4", "exit", "z.png"]).map sessionCall ∧
      withoutReads (main countingEngine sampleStat ["trt", "cfg.yaml", "webui"]
        ["a.png", "", "a.png", "v.mp4", "exit", "z.png"]).trace
        = .construct "cfg.yaml" :: .LoadEngine :: .out .ready ::
            dialogue (accepted ["a.png", "", "a.png", "v.mp4", "exit", "z.png"])
              ["img0:a.png", "img1:a.png", "vid2:v.mp4"] ∧
      (main countingEngine sampleStat ["trt", "cfg.yaml", "webui"]
        ["a.png", "", "a.png", "v.mp4", "exit", "z.png"]).exit = some 0 :=
  webui_session_output countingEngine sampleStat "trt" "cfg.yaml" []
    ["a.png", "", "a.png", "v.mp4", "exit", "z.png"] 0 0
    ["img0:a.png", "img1:a.png", "vid2:v.mp4"] rfl rfl (by decide)

/-- C2: dispatcher precedence. In a run with two arguments whose engine is
constructed and loaded, exactly one mode runs, the first that matches: the
target `webui` starts the session, whatever the file system says (the events
after `READY` are those of the loop: reads, `InferenceVideo` or `InferenceImage`
calls and replies, never `InferenceFolder`); otherwise a directory gets one
`InferenceFolder` call, whatever its extension; otherwise a video path gets one
`InferenceVideo` call; otherwise the target gets one `InferenceImage` call. The
trace of a one-shot mode holds no other inference call. -/
theorem dispatcher_precedence {σ : Type} (eng : Engine σ) (stat : String → Option Nat)
    (prog configPath target : String) (more stdin : List String) (v0 v : σ)
    (hc : eng.construct configPath = some v0) (hl : eng.LoadEngine v0 = some v) :
    (target = "webui" →
      (main eng stat (prog :: configPath :: target :: more) stdin).trace =
          .construct configPath :: .LoadEngine :: .out .ready ::
            (webuiLoop eng v stdin).trace ∧
        ∀ e ∈ (webuiLoop eng v stdin).trace, e.inLoop = true) ∧
    (target ≠ "webui" → isFolder stat target = true →
      (main eng stat (prog :: configPath :: target :: more) stdin).trace =
        [.construct configPath, .LoadEngine, .stat target, .out .folderBanner,
          .InferenceFolder target]) ∧
    (target ≠ "webui" → isFolder stat target = false → isVideoFile target = some true →
      (main eng stat (prog :: configPath :: target :: more) stdin).trace =
        [.construct configPath, .LoadEngine, .stat target, .out .videoBanner,
          .InferenceVideo target]) ∧
    (target ≠ "webui" → isFolder stat target = false → isVideoFile target ≠ some true →
      (main eng stat (prog :: configPath :: target :: more) stdin).trace =
        [.construct configPath, .LoadEngine, .stat target, .out .imageBanner,
          .InferenceImage target]) := by
  rw [main_loaded eng stat prog configPath target more stdin v0 v hc hl]
  refine ⟨?_, ?_, ?_, ?_⟩
  · intro h
    subst h
    exact ⟨rfl, webuiLoop_inLoop eng v stdin⟩
  · intro h1 h2
    show _ :: _ :: (dispatch eng stat v target stdin).trace = _
    rw [dispatch_folder eng stat v target stdin h1 h2]
  · intro h1 h2 h3
    show _ :: _ :: (dispatch eng stat v target stdin).trace = _
    rw [dispatch_video eng stat v target stdin h1 h2 h3]
  · intro h1 h2 h3
    show _ :: _ :: (dispatch eng stat v target stdin).trace = _
    rw [dispatch_image eng stat v target stdin h1 h2 h3]

/-- Witness of C2: the four modes, with a directory named `webui` and a
directory named `clips.mp4` in the file system. -/
theorem dispatcher_precedence_witness :
    (main countingEngine sampleStat ["trt", "cfg.yaml", "webui"] ["exit"]).trace =
        [.construct "cfg.yaml", .LoadEngine, .out .ready, .getline (some "exit")] ∧
      (main countingEngine sampleStat ["trt", "cfg.yaml", "clips.mp4"] []).trace =
        [.construct "cfg.yaml", .LoadEngine, .stat "clips.mp4", .out .folderBanner,
          .InferenceFolder "clips.mp4"] ∧
      (main countingEngine sampleStat ["trt", "cfg.yaml", "v.mov"] []).trace =
        [.construct "cfg.yaml", .LoadEngine, .stat "v.mov", .out .videoBanner,
          .InferenceVideo "v.mov"] ∧
      (main countingEngine sampleStat ["trt", "cfg.yaml", "notes"] []).trace =
        [.construct "cfg.yaml", .LoadEngine, .stat "notes", .out .imageBanner,
          .InferenceImage "notes"] :=
  ⟨((dispatcher_precedence countingEngine sampleStat "trt" "cfg.yaml" "webui" []
      ["exit"] 0 0 rfl rfl).1 rfl).1,
    (dispatcher_precedence countingEngine sampleStat "trt" "cfg.yaml" "clips.mp4" []
      [] 0 0 rfl rfl).2.1 (by decide) (by decide),
    (dispatcher_precedence countingEngine sampleStat "trt" "cfg.yaml" "v.mov" []
      [] 0 0 rfl rfl).2.2.1 (by decide) (by decide) (by decide),
    (dispatcher_precedence countingEngine sampleStat "trt" "cfg.yaml" "notes" []
      [] 0 0 rfl rfl).2.2.2 (by decide) (by decide) (by decide)⟩

/-- C6: termination of the session. When no line of `pre` is `exit`, a session fed
`pre`, then `exit`, then `rest` has the same standard output, the same inference
calls and the same exit code as a session fed `pre` and then the end of input
(the two runs have the same events, the reads apart); it is the run on `pre`
followed by `exit` alone, so that no line of `rest` is read; and when the engine
answers the accepted requests of `pre` both exit codes are `0` and the output
holds `READY` and those answers only, no line for `exit`. -/
theorem exit_ends_session_like_eof {σ : Type} (eng : Engine σ)
    (stat : String → Option Nat) (prog configPath : String) (more pre rest : List String)
    (hpre : ∀ l ∈ pre, l ≠ "exit") :
    stdoutOf (main eng stat (prog :: configPath :: "webui" :: more)
        (pre ++ "exit" :: rest)).trace
      = stdoutOf (main eng stat (prog :: configPath :: "webui" :: more) pre).trace ∧
    engineCalls (main eng stat (prog :: configPath :: "webui" :: more)
        (pre ++ "exit" :: rest)).trace
      = engineCalls (main eng stat (prog :: configPath :: "webui" :: more) pre).trace ∧
    (main eng stat (prog :: configPath :: "webui" :: more) (pre ++ "exit" :: rest)).exit
      = (main eng stat (prog :: configPath :: "webui" :: more) pre).exit ∧
    withoutReads (main eng stat (prog :: configPath :: "webui" :: more)
        (pre ++ "exit" :: rest)).trace
      = withoutReads (main eng stat (prog :: configPath :: "webui" :: more) pre).trace ∧
    main eng stat (prog :: configPath :: "webui" :: more) (pre ++ "exit" :: rest)
      = main eng stat (prog :: configPath :: "webui" :: more) (pre ++ ["exit"]) ∧
    (∀ (v0 v : σ) (rs : List String), eng.construct configPath = some v0 →
      eng.LoadEngine v0 = some v → answers eng v (accepted pre) = some rs →
      (main eng stat (prog :: configPath :: "webui" :: more)
          (pre ++ "exit" :: rest)).exit = some 0 ∧
        (main eng stat (prog :: configPath :: "webui" :: more) pre).exit = some 0 ∧
        stdoutOf (main eng stat (prog :: configPath :: "webui" :: more)
          (pre ++ "exit" :: rest)).trace = "READY" :: rs) := by
  obtain ⟨hw, he⟩ := main_webui_same eng stat prog configPath more
    (pre ++ "exit" :: rest) pre (fun v => webuiLoop_exit_eof eng v pre rest hpre)
  have hout : stdoutOf (main eng stat (prog :: configPath :: "webui" :: more)
        (pre ++ "exit" :: rest)).trace
      = stdoutOf (main eng stat (prog :: configPath :: "webui" :: more) pre).trace := by
    rw [← stdoutOf_withoutReads, hw, stdoutOf_withoutReads]
  refine ⟨hout, ?_, he, hw, ?_, ?_⟩
  · rw [← engineCalls_withoutReads, hw, engineCalls_withoutReads]
  · exact main_webui_congr eng stat prog configPath more _ _
      (fun v => webuiLoop_exit_rest eng v pre rest)
  · intro v0 v rs hc hl hrs
    have h0 := webui_exit_zero eng stat prog configPath more pre v0 v rs hc hl hrs
    refine ⟨by rw [he, h0], h0, ?_⟩
    rw [hout]
    exact webui_stdout eng stat prog configPath more pre v0 v rs hc hl hrs

/-- Witness of C6: two requests and an empty line, then `exit` and one more
line. -/
theorem exit_ends_session_like_eof_witness :
    (∀ l ∈ ["a.png", "", "v.mp4"], l ≠ "exit") ∧
      stdoutOf (main countingEngine sampleStat ["trt", "cfg.yaml", "webui"]
          (["a.png", "", "v.mp4"] ++ "exit" :: ["z.png"])).trace
        = stdoutOf (main countingEngine sampleStat ["trt", "cfg.yaml", "webui"]
          ["a.png", "", "v.mp4"]).trace ∧
      (main countingEngine sampleStat ["trt", "cfg.yaml", "webui"]
          (["a.png", "", "v.mp4"] ++ "exit" :: ["z.png"])).exit = some 0 :=
  ⟨by decide,
    (exit_ends_session_like_eof countingEngine sampleStat "trt" "cfg.yaml" []
      ["a.png", "", "v.mp4"] ["z.png"] (by decide)).1,
    ((exit_ends_session_like_eof countingEngine sampleStat "trt" "cfg.yaml" []
      ["a.png", "", "v.mp4"] ["z.png"] (by decide)).2.2.2.2.2 0 0
        ["img0:a.png", "vid1:v.mp4"] rfl rfl (by decide)).1⟩

/-- C7: empty-line tolerance. For every engine and all line sequences `a` and `b`,
a session fed `a`, an empty line and `b` has the same standard output, the same
inference calls and the same exit code as a session fed `a` and `b`; the two
runs have the same events, the reads apart: the empty line gives no reply and
does not end the session. -/
theorem empty_line_is_skipped {σ : Type} (eng : Engine σ) (stat : String → Option Nat)
    (prog configPath : String) (more a b : List String) :
    stdoutOf (main eng stat (prog :: configPath :: "webui" :: more) (a ++ "" :: b)).trace
      = stdoutOf (main eng stat (prog :: configPath :: "webui" :: more) (a ++ b)).trace ∧
    engineCalls (main eng stat (prog :: configPath :: "webui" :: more) (a ++ "" :: b)).trace
      = engineCalls (main eng stat (prog :: configPath :: "webui" :: more) (a ++ b)).trace ∧
    withoutReads (main eng stat (prog :: configPath :: "webui" :: more) (a ++ "" :: b)).trace
      = withoutReads (main eng stat (prog :: configPath :: "webui" :: more) (a ++ b)).trace ∧
    (main eng stat (prog :: configPath :: "webui" :: more) (a ++ "" :: b)).exit
      = (main eng stat (prog :: configPath :: "webui" :: more) (a ++ b)).exit := by
  obtain ⟨hw, he⟩ := main_webui_same eng stat prog configPath more
    (a ++ "" :: b) (a ++ b) (fun v => webuiLoop_skip_empty eng v a b)
  refine ⟨?_, ?_, hw, he⟩
  · rw [← stdoutOf_withoutReads, hw, stdoutOf_withoutReads]
  · rw [← engineCalls_withoutReads, hw, engineCalls_withoutReads]

/-- C8: engine lifetime and handshake order. In a run with two arguments whose
engine is constructed and loaded, the trace starts with the construction and
the call of `LoadEngine`, which occur once each (before any output and any
inference call, then); in a `webui` run the next event is the line `READY`, so
that every read and every inference call comes after it; and the loop holds no
construction, no load and no second `READY`. -/
theorem engine_lifetime {σ : Type} (eng : Engine σ) (stat : String → Option Nat)
    (prog configPath target : String) (more stdin : List String) (v0 v : σ)
    (hc : eng.construct configPath = some v0) (hl : eng.LoadEngine v0 = some v) :
    (main eng stat (prog :: configPath :: target :: more) stdin).trace =
        .construct configPath :: .LoadEngine :: (dispatch eng stat v target stdin).trace ∧
      (∀ e ∈ (dispatch eng stat v target stdin).trace, e.isLifetime = false) ∧
      (main eng stat (prog :: configPath :: target :: more) stdin).trace.filter
          Event.isLifetime = [.construct configPath, .LoadEngine] ∧
      (target = "webui" →
        (main eng stat (prog :: configPath :: target :: more) stdin).trace =
            .construct configPath :: .LoadEngine :: .out .ready ::
              (webuiLoop eng v stdin).trace ∧
          ∀ e ∈ (webuiLoop eng v stdin).trace,
            e.isLifetime = false ∧ e ≠ .out .ready) := by
  have hbody : ∀ e ∈ (dispatch eng stat v target stdin).trace, e.isLifetime = false :=
    fun e he => isLifetime_of_inBody e (dispatch_inBody eng stat v target stdin e he)
  rw [main_loaded eng stat prog configPath target more stdin v0 v hc hl]
  refine ⟨rfl, hbody, ?_, ?_⟩
  · show List.filter Event.isLifetime
        (.construct configPath :: .LoadEngine :: (dispatch eng stat v target stdin).trace) = _
    have hnil : (dispatch eng stat v target stdin).trace.filter Event.isLifetime = [] := by
      rw [List.filter_eq_nil_iff]
      intro e he
      simp [hbody e he]
    simp [List.filter_cons, Event.isLifetime, hnil]
  · intro h
    subst h
    refine ⟨rfl, fun e he => ?_⟩
    have hin := webuiLoop_inLoop eng v stdin e he
    refine ⟨isLifetime_of_inBody e (inBody_of_inLoop e hin), ?_⟩
    intro heq
    rw [heq] at hin
    exact absurd hin (by decide)

/-- Witness of C8: a session with one request. -/
theorem engine_lifetime_witness :
    (main countingEngine sampleStat ["trt", "cfg.yaml", "webui"] ["a.png"]).trace.filter
        Event.isLifetime = [.construct "cfg.yaml", .LoadEngine] ∧
      (main countingEngine sampleStat ["trt", "cfg.yaml", "webui"] ["a.png"]).trace =
        .construct "cfg.yaml" :: .LoadEngine :: .out .ready ::
          (webuiLoop countingEngine 0 ["a.png"]).trace :=
  ⟨(engine_lifetime countingEngine sampleStat "trt" "cfg.yaml" "webui" [] ["a.png"]
      0 0 rfl rfl).2.2.1,
    ((engine_lifetime countingEngine sampleStat "trt" "cfg.yaml" "webui" [] ["a.png"]
      0 0 rfl rfl).2.2.2 rfl).1⟩

/-- C9: usage error. With fewer than two arguments (`argc < 3`) the run consists
of the usage line alone, written to standard output, and the exit code `-1`: the
engine is not constructed, not loaded and not called. With two arguments or more
the usage line is not written. -/
theorem usage_error {σ : Type} (eng : Engine σ) (stat : String → Option Nat)
    (argv stdin : List String) :
    (argv.length < 3 →
      main eng stat argv stdin = ⟨[.out .usage], some (-1)⟩ ∧
        stdoutOf (main eng stat argv stdin).trace =
          ["Usage: ./yolov5_trt [config_path] [input_path/webui]"]) ∧
    (3 ≤ argv.length → Event.out .usage ∉ (main eng stat argv stdin).trace) := by
  constructor
  · intro h
    have hm : main eng stat argv stdin = ⟨[.out .usage], some (-1)⟩ := by
      simp only [main, if_pos h]
    rw [hm]
    exact ⟨rfl, rfl⟩
  · intro h
    match argv, h with
    | prog :: configPath :: target :: more, _ =>
      cases hc : eng.construct configPath with
      | none =>
        rw [main_construct_fails eng stat prog configPath target more stdin hc]
        simp
      | some v0 =>
        cases hl : eng.LoadEngine v0 with
        | none =>
          rw [main_load_fails eng stat prog configPath target more stdin v0 hc hl]
          simp
        | some v =>
          rw [main_loaded eng stat prog configPath target more stdin v0 v hc hl]
          intro hmem
          simp only [List.mem_cons] at hmem
          rcases hmem with hmem | hmem | hmem
          · exact absurd hmem (by simp)
          · exact absurd hmem (by simp)
          · exact absurd (dispatch_inBody eng stat v target stdin _ hmem) (by decide)

/-- Witness of C9: a run with the configuration path only, and a run with two
arguments. -/
theorem usage_error_witness :
    main countingEngine sampleStat ["trt", "cfg.yaml"] ["a.png"] =
        ⟨[.out .usage], some (-1)⟩ ∧
      Event.out .usage ∉ (main countingEngine sampleStat ["trt", "cfg.yaml", "a.png"] []).trace :=
  ⟨((usage_error countingEngine sampleStat ["trt", "cfg.yaml"] ["a.png"]).1 (by decide)).1,
    (usage_error countingEngine sampleStat ["trt", "cfg.yaml", "a.png"] []).2 (by decide)⟩

/-- C10: engine-load failure is fatal. In a run with two arguments in which the
constructor of the engine or `LoadEngine` does not return, nothing is written to
standard output (neither `READY` nor a banner), no inference function is called
and the process does not exit through `return`. -/
theorem engine_failure_is_fatal {σ : Type} (eng : Engine σ) (stat : String → Option Nat)
    (prog configPath target : String) (more stdin : List String)
    (hfail : eng.construct configPath = none ∨
      ∃ v0, eng.construct configPath = some v0 ∧ eng.LoadEngine v0 = none) :
    stdoutOf (main eng stat (prog :: configPath :: target :: more) stdin).trace = [] ∧
      (∀ o, Event.out o ∉ (main eng stat (prog :: configPath :: target :: more) stdin).trace) ∧
      engineCalls (main eng stat (prog :: configPath :: target :: more) stdin).trace = [] ∧
      (∀ e ∈ (main eng stat (prog :: configPath :: target :: more) stdin).trace,
        e.isInference = false) ∧
      (main eng stat (prog :: configPath :: target :: more) stdin).exit = none := by
  rcases hfail with hc | ⟨v0, hc, hl⟩
  · rw [main_construct_fails eng stat prog configPath target more stdin hc]
    refine ⟨rfl, ?_, rfl, ?_, rfl⟩
    · intro o
      simp
    · intro e he
      simp only [List.mem_singleton] at he
      rw [he]
      rfl
  · rw [main_load_fails eng stat prog configPath target more stdin v0 hc hl]
    refine ⟨rfl, ?_, rfl, ?_, rfl⟩
    · intro o
      simp
    · intro e he
      simp only [List.mem_cons, List.mem_singleton, List.not_mem_nil, or_false] at he
      rcases he with he | he <;> (rw [he]; rfl)

/-- Witness of C10: a configuration from which the engine cannot be constructed,
with target `webui`, and one with which it cannot be loaded, with an image. -/
theorem engine_failure_is_fatal_witness :
    (fragileEngine.construct "missing.yaml" = none ∧
        main fragileEngine sampleStat ["trt", "missing.yaml", "webui"] ["a.png"] =
          ⟨[.construct "missing.yaml"], none⟩) ∧
      stdoutOf (main fragileEngine sampleStat ["trt", "stale.yaml", "a.png"] []).trace = [] ∧
      engineCalls (main fragileEngine sampleStat ["trt", "stale.yaml", "a.png"] []).trace = [] :=
  ⟨⟨by decide, by decide⟩,
    (engine_failure_is_fatal fragileEngine sampleStat "trt" "stale.yaml" "a.png" [] []
      (Or.inr ⟨1, by decide, by decide⟩)).1,
    (engine_failure_is_fatal fragileEngine sampleStat "trt" "stale.yaml" "a.png" [] []
      (Or.inr ⟨1, by decide, by decide⟩)).2.2.1⟩

/-! ## The directory predicate -/

/-- What `isFolder` computes: the call of `stat` succeeds and the bit `S_IFDIR`
of `st_mode` is set. -/
theorem isFolder_eq_true_iff (stat : String → Option Nat) (path : String) :
    isFolder stat path = true ↔ ∃ m, stat path = some m ∧ m &&& S_IFDIR ≠ 0 := by
  unfold isFolder
  cases h : stat path with
  | none => simp
  | some m => simp

/-- The predicate `isFolder` is `true` on every directory. -/
theorem isFolder_of_directory (stat : String → Option Nat) (path : String) (m : Nat)
    (hs : stat path = some m) (hd : m &&& S_IFMT = S_IFDIR) :
    isFolder stat path = true := by
  rw [isFolder_eq_true_iff]
  refine ⟨m, hs, ?_⟩
  have h1 : m &&& S_IFDIR = (m &&& S_IFMT) &&& S_IFDIR := by
    rw [Nat.land_assoc]
    rfl
  rw [h1, hd]
  decide

/-- C11, the code at the failing inputs: on a block device and on a socket `stat`
succeeds and the file type `st_mode & S_IFMT` is not `S_IFDIR`, yet `isFolder`
returns `true`, because these types share the bit `S_IFDIR`; a run on the block
device is a folder inference. On a directory it returns `true`, on a regular
file and on a path that does not exist `false`. -/
theorem isFolder_on_devices :
    (deviceStat "/dev/sda" = some 0o060660 ∧ 0o060660 &&& S_IFMT ≠ S_IFDIR ∧
        isFolder deviceStat "/dev/sda" = true) ∧
      (deviceStat "/run/app.sock" = some 0o140755 ∧ 0o140755 &&& S_IFMT ≠ S_IFDIR ∧
        isFolder deviceStat "/run/app.sock" = true) ∧
      (main countingEngine deviceStat ["trt", "cfg.yaml", "/dev/sda"] []).trace =
        [.construct "cfg.yaml", .LoadEngine, .stat "/dev/sda", .out .folderBanner,
          .InferenceFolder "/dev/sda"] ∧
      isFolder deviceStat "/tmp" = true ∧
      isFolder deviceStat "/etc/hosts" = false ∧
      isFolder deviceStat "/nowhere" = false := by
  decide

/-! ## The classifiers, exactly -/

theorem afterLastDot_of_not_mem (l : List Char) (h : '.' ∉ l) : afterLastDot l = l := by
  cases l with
  | nil => rfl
  | cons c cs =>
    have hc : ¬ c = '.' := fun e => h (by simp [e])
    have hcs : '.' ∉ cs := fun e => h (by simp [e])
    simp only [afterLastDot, if_neg hcs, if_neg hc]

theorem afterLastDot_append (pre ext : List Char) (h : '.' ∉ ext) :
    afterLastDot (pre ++ '.' :: ext) = ext := by
  induction pre with
  | nil => simp only [List.nil_append, afterLastDot, if_neg h, if_true]
  | cons c cs ih =>
    have hmem : '.' ∈ cs ++ '.' :: ext := by simp
    show afterLastDot (c :: (cs ++ '.' :: ext)) = ext
    rw [afterLastDot, if_pos hmem, ih]

/-- A path with a `'.'` is a prefix, a `'.'` and the part after the last `'.'`. -/
theorem afterLastDot_split (l : List Char) (h : '.' ∈ l) :
    (∃ pre, l = pre ++ '.' :: afterLastDot l) ∧ '.' ∉ afterLastDot l := by
  induction l with
  | nil => simp at h
  | cons c cs ih =>
    by_cases hcs : '.' ∈ cs
    · obtain ⟨⟨pre, hpre⟩, hno⟩ := ih hcs
      simp only [afterLastDot, if_pos hcs]
      refine ⟨⟨c :: pre, ?_⟩, hno⟩
      rw [List.cons_append, ← hpre]
    · have hc : c = '.' := by
        rcases List.mem_cons.mp h with h1 | h1
        · exact h1.symm
        · exact absurd h1 hcs
      simp only [afterLastDot, if_neg hcs, if_pos hc]
      exact ⟨⟨[], by rw [hc]; rfl⟩, hcs⟩

/-- The code computes the extension the specification describes. -/
theorem extension_eq_afterLastDot (p : String) (hsize : p.length < SIZE_MOD) :
    extension p = some ⟨afterLastDot p.data⟩ := by
  by_cases h : '.' ∈ p.data
  · obtain ⟨⟨pre, hpre⟩, hno⟩ := afterLastDot_split p.data h
    exact extension_of_data p pre (afterLastDot p.data) hno hpre hsize
  · rw [extension_of_no_dot p h, afterLastDot_of_not_mem p.data h]

/-- The extension is a given word without `'.'` exactly when the path is that
word or ends in `'.'` followed by it. -/
theorem extension_eq_word_iff (p w : String) (hdot : '.' ∉ w.data)
    (hsize : p.length < SIZE_MOD) :
    extension p = some w ↔ p = w ∨ ∃ pre : String, p = pre ++ "." ++ w := by
  rw [extension_eq_afterLastDot p hsize]
  constructor
  · intro h
    have ha : afterLastDot p.data = w.data := by
      have := congrArg String.data (Option.some.inj h)
      exact this
    by_cases hmem : '.' ∈ p.data
    · obtain ⟨⟨pre, hpre⟩, _⟩ := afterLastDot_split p.data hmem
      right
      refine ⟨⟨pre⟩, String.ext ?_⟩
      rw [hpre, ha]
      simp [String.data_append]
    · left
      apply String.ext
      rw [← ha, afterLastDot_of_not_mem p.data hmem]
  · rintro (h | ⟨pre, h⟩)
    · rw [h, afterLastDot_of_not_mem w.data hdot]
    · have hd : p.data = pre.data ++ '.' :: w.data := by
        rw [h]
        simp [String.data_append]
      rw [hd, afterLastDot_append pre.data w.data hdot]

theorem isVideoFile_iff_extension (p : String) :
    isVideoFile p = some true ↔ ∃ w ∈ videoWords, extension p = some w := by
  obtain ⟨ext, he⟩ : ∃ ext, extension p = some ext := ⟨_, extension_eq p⟩
  rw [isVideoFile_of_extension p ext he, he]
  simp [videoWords, or_assoc]

theorem isImageFile_iff_extension (p : String) :
    isImageFile p = some true ↔ ∃ w ∈ imageWords, extension p = some w := by
  obtain ⟨ext, he⟩ : ∃ ext, extension p = some ext := ⟨_, extension_eq p⟩
  rw [isImageFile_of_extension p ext he, he]
  simp [imageWords, or_assoc]

theorem videoWords_no_dot : ∀ w ∈ videoWords, '.' ∉ w.data := by decide

theorem imageWords_no_dot : ∀ w ∈ imageWords, '.' ∉ w.data := by decide

theorem videoWords_not_imageWords : ∀ w ∈ videoWords, w ∉ imageWords := by decide

theorem isVideoFile_iff_ends (p : String) (hsize : p.length < SIZE_MOD) :
    isVideoFile p = some true ↔
      ∃ w ∈ videoWords, p = w ∨ ∃ pre : String, p = pre ++ "." ++ w := by
  rw [isVideoFile_iff_extension]
  constructor
  · rintro ⟨w, hw, h⟩
    exact ⟨w, hw, (extension_eq_word_iff p w (videoWords_no_dot w hw) hsize).mp h⟩
  · rintro ⟨w, hw, h⟩
    exact ⟨w, hw, (extension_eq_word_iff p w (videoWords_no_dot w hw) hsize).mpr h⟩

theorem isImageFile_iff_ends (p : String) (hsize : p.length < SIZE_MOD) :
    isImageFile p = some true ↔
      ∃ w ∈ imageWords, p = w ∨ ∃ pre : String, p = pre ++ "." ++ w := by
  rw [isImageFile_iff_extension]
  constructor
  · rintro ⟨w, hw, h⟩
    exact ⟨w, hw, (extension_eq_word_iff p w (imageWords_no_dot w hw) hsize).mp h⟩
  · rintro ⟨w, hw, h⟩
    exact ⟨w, hw, (extension_eq_word_iff p w (imageWords_no_dot w hw) hsize).mpr h⟩

/-- C14: exact characterisation of the classifiers. For every string `p` (shorter
than `2 ^ 64`, as every `std::string` is) the extension the code computes is the
substring after the last `'.'` of `p`, the whole of `p` when it has none;
`isVideoFile` returns `true` exactly when that substring is one of `mp4`, `avi`,
`mkv`, `mov`, that is exactly when `p` is one of these words or ends in `'.'`
followed by one of them; the same holds for `isImageFile` with `jpg`, `jpeg`,
`png`, `bmp`. A string that ends in `.MP4` or `.Jpg` is in neither set, the empty
string is in neither set, and no string is in both. -/
theorem classifier_characterisation (p : String) (hsize : p.length < SIZE_MOD) :
    extension p = some ⟨afterLastDot p.data⟩ ∧
    (isVideoFile p = some true ↔ String.mk (afterLastDot p.data) ∈ videoWords) ∧
    (isVideoFile p = some true ↔
      ∃ w ∈ videoWords, p = w ∨ ∃ pre : String, p = pre ++ "." ++ w) ∧
    (isImageFile p = some true ↔ String.mk (afterLastDot p.data) ∈ imageWords) ∧
    (isImageFile p = some true ↔
      ∃ w ∈ imageWords, p = w ∨ ∃ pre : String, p = pre ++ "." ++ w) ∧
    ((∃ pre : String, p = pre ++ ".MP4" ∨ p = pre ++ ".Jpg") →
      isVideoFile p = some false ∧ isImageFile p = some false) ∧
    (p = "" → isVideoFile p = some false ∧ isImageFile p = some false) ∧
    ¬ (isVideoFile p = some true ∧ isImageFile p = some true) := by
  have he := extension_eq_afterLastDot p hsize
  refine ⟨he, ?_, isVideoFile_iff_ends p hsize, ?_, isImageFile_iff_ends p hsize, ?_, ?_, ?_⟩
  · rw [isVideoFile_iff_extension, he]
    simp
  · rw [isImageFile_iff_extension, he]
    simp
  · rintro ⟨pre, h | h⟩
    · have hx := extension_of_suffix p pre "MP4".data (by decide) h hsize
      rw [isVideoFile_of_extension p "MP4" hx, isImageFile_of_extension p "MP4" hx]
      exact ⟨rfl, rfl⟩
    · have hx := extension_of_suffix p pre "Jpg".data (by decide) h hsize
      rw [isVideoFile_of_extension p "Jpg" hx, isImageFile_of_extension p "Jpg" hx]
      exact ⟨rfl, rfl⟩
  · intro h
    subst h
    exact ⟨by decide, by decide⟩
  · rintro ⟨hv, hi⟩
    rw [isVideoFile_iff_extension] at hv
    rw [isImageFile_iff_extension] at hi
    obtain ⟨w, hw, hew⟩ := hv
    obtain ⟨w', hw', hew'⟩ := hi
    have hww : w = w' := Option.some.inj (hew.symm.trans hew')
    subst hww
    exact videoWords_not_imageWords w hw hw'

/-- Witness of C14: the path `run.1/clip.MP4`, with an extension in capitals. -/
theorem classifier_characterisation_witness :
    "run.1/clip.MP4".length < SIZE_MOD ∧
      extension "run.1/clip.MP4" = some ⟨afterLastDot "run.1/clip.MP4".data⟩ ∧
      isVideoFile "run.1/clip.MP4" = some false ∧
      isImageFile "run.1/clip.MP4" = some false :=
  ⟨by decide,
    (classifier_characterisation "run.1/clip.MP4" (by decide)).1,
    (classifier_characterisation "run.1/clip.MP4" (by decide)).2.2.2.2.2.1
      ⟨"run.1/clip", Or.inl (by decide)⟩⟩

/-! ## One-shot runs -/

theorem dispatch_folder_returned {σ : Type} (eng : Engine σ) (stat : String → Option Nat)
    (v : σ) (inputPath : String) (stdin : List String)
    (h1 : inputPath ≠ "webui") (h2 : isFolder stat inputPath = true) :
    (dispatch eng stat v inputPath stdin).returned = (eng.InferenceFolder v inputPath).isSome := by
  unfold dispatch
  rw [if_neg h1, if_pos h2]
  cases eng.InferenceFolder v inputPath <;> rfl

theorem dispatch_video_returned {σ : Type} (eng : Engine σ) (stat : String → Option Nat)
    (v : σ) (inputPath : String) (stdin : List String)
    (h1 : inputPath ≠ "webui") (h2 : isFolder stat inputPath = false)
    (h3 : isVideoFile inputPath = some true) :
    (dispatch eng stat v inputPath stdin).returned = (eng.InferenceVideo v inputPath).isSome := by
  have h2' : ¬ isFolder stat inputPath = true := by simp [h2]
  unfold dispatch
  rw [if_neg h1, if_neg h2']
  simp only [h3]
  cases eng.InferenceVideo v inputPath <;> rfl

theorem dispatch_image_returned {σ : Type} (eng : Engine σ) (stat : String → Option Nat)
    (v : σ) (inputPath : String) (stdin : List String)
    (h1 : inputPath ≠ "webui") (h2 : isFolder stat inputPath = false)
    (h3 : isVideoFile inputPath ≠ some true) :
    (dispatch eng stat v inputPath stdin).returned = (eng.InferenceImage v inputPath).isSome := by
  have h2' : ¬ isFolder stat inputPath = true := by simp [h2]
  obtain ⟨b, hb⟩ := isVideoFile_returns inputPath
  have hb' : isVideoFile inputPath = some false := by
    cases b with
    | true => exact absurd hb h3
    | false => exact hb
  unfold dispatch
  rw [if_neg h1, if_neg h2']
  simp only [hb']
  cases eng.InferenceImage v inputPath <;> rfl

/-- The trace of a one-shot run is one of three. -/
theorem dispatch_one_shot {σ : Type} (eng : Engine σ) (stat : String → Option Nat)
    (v : σ) (inputPath : String) (stdin : List String) (h1 : inputPath ≠ "webui") :
    (dispatch eng stat v inputPath stdin).trace =
        [.stat inputPath, .out .folderBanner, .InferenceFolder inputPath] ∨
      (dispatch eng stat v inputPath stdin).trace =
        [.stat inputPath, .out .videoBanner, .InferenceVideo inputPath] ∨
      (dispatch eng stat v inputPath stdin).trace =
        [.stat inputPath, .out .imageBanner, .InferenceImage inputPath] := by
  cases h2 : isFolder stat inputPath with
  | true => exact Or.inl (dispatch_folder eng stat v inputPath stdin h1 h2)
  | false =>
    by_cases h3 : isVideoFile inputPath = some true
    · exact Or.inr (Or.inl (dispatch_video eng stat v inputPath stdin h1 h2 h3))
    · exact Or.inr (Or.inr (dispatch_image eng stat v inputPath stdin h1 h2 h3))

/-- C12: one-shot banners. In a run with two arguments whose engine is
constructed and loaded and whose target is not `webui`, standard output is
exactly one banner line, written just before the inference call of the mode:
`Mode: Folder Inference` with `InferenceFolder`, `Mode: Single Video Inference`
with `InferenceVideo`, `Mode: Single Image Inference` with `InferenceImage`;
`READY` is not written. In a `webui` run no banner statement is executed. -/
theorem one_shot_banner {σ : Type} (eng : Engine σ) (stat : String → Option Nat)
    (prog configPath target : String) (more stdin : List String) (v0 v : σ)
    (hc : eng.construct configPath = some v0) (hl : eng.LoadEngine v0 = some v) :
    (target ≠ "webui" →
      (isFolder stat target = true →
        (main eng stat (prog :: configPath :: target :: more) stdin).trace =
            [.construct configPath, .LoadEngine, .stat target, .out .folderBanner,
              .InferenceFolder target] ∧
          stdoutOf (main eng stat (prog :: configPath :: target :: more) stdin).trace =
            ["Mode: Folder Inference"]) ∧
      (isFolder stat target = false → isVideoFile target = some true →
        (main eng stat (prog :: configPath :: target :: more) stdin).trace =
            [.construct configPath, .LoadEngine, .stat target, .out .videoBanner,
              .InferenceVideo target] ∧
          stdoutOf (main eng stat (prog :: configPath :: target :: more) stdin).trace =
            ["Mode: Single Video Inference"]) ∧
      (isFolder stat target = false → isVideoFile target ≠ some true →
        (main eng stat (prog :: configPath :: target :: more) stdin).trace =
            [.construct configPath, .LoadEngine, .stat target, .out .imageBanner,
              .InferenceImage target] ∧
          stdoutOf (main eng stat (prog :: configPath :: target :: more) stdin).trace =
            ["Mode: Single Image Inference"]) ∧
      Event.out .ready ∉ (main eng stat (prog :: configPath :: target :: more) stdin).trace ∧
      "READY" ∉ stdoutOf (main eng stat (prog :: configPath :: target :: more) stdin).trace) ∧
    (target = "webui" →
      ∀ o ∈ [Output.folderBanner, Output.videoBanner, Output.imageBanner],
        Event.out o ∉ (main eng stat (prog :: configPath :: target :: more) stdin).trace) := by
  rw [main_loaded eng stat prog configPath target more stdin v0 v hc hl]
  constructor
  · intro h1
    refine ⟨?_, ?_, ?_, ?_⟩
    · intro h2
      show _ :: _ :: (dispatch eng stat v target stdin).trace = _ ∧
        stdoutOf (_ :: _ :: (dispatch eng stat v target stdin).trace) = _
      rw [dispatch_folder eng stat v target stdin h1 h2]
      exact ⟨rfl, rfl⟩
    · intro h2 h3
      show _ :: _ :: (dispatch eng stat v target stdin).trace = _ ∧
        stdoutOf (_ :: _ :: (dispatch eng stat v target stdin).trace) = _
      rw [dispatch_video eng stat v target stdin h1 h2 h3]
      exact ⟨rfl, rfl⟩
    · intro h2 h3
      show _ :: _ :: (dispatch eng stat v target stdin).trace = _ ∧
        stdoutOf (_ :: _ :: (dispatch eng stat v target stdin).trace) = _
      rw [dispatch_image eng stat v target stdin h1 h2 h3]
      exact ⟨rfl, rfl⟩
    · show Event.out .ready ∉ _ :: _ :: (dispatch eng stat v target stdin).trace ∧
        "READY" ∉ stdoutOf (_ :: _ :: (dispatch eng stat v target stdin).trace)
      rcases dispatch_one_shot eng stat v target stdin h1 with h | h | h <;>
        (rw [h]; exact ⟨by simp, by simp [stdoutOf, Output.text]⟩)
  · intro h1 o ho hmem
    subst h1
    simp only [dispatch_webui, Outcome.after_trace, List.mem_cons] at hmem
    have hloop : (Event.out o).inLoop = false := by
      simp only [List.mem_cons, List.mem_singleton, List.not_mem_nil, or_false] at ho
      rcases ho with ho | ho | ho <;> (rw [ho]; rfl)
    rcases hmem with hmem | hmem | hmem | hmem
    · exact absurd hmem (by simp)
    · exact absurd hmem (by simp)
    · simp only [Event.out.injEq] at hmem
      rw [hmem] at ho
      exact absurd ho (by decide)
    · rw [webuiLoop_inLoop eng v stdin _ hmem] at hloop
      exact absurd hloop (by decide)

/-- Witness of C12: a folder run, and a session in which the engine is asked
about a path. -/
theorem one_shot_banner_witness :
    stdoutOf (main countingEngine sampleStat ["trt", "cfg.yaml", "data"] []).trace =
        ["Mode: Folder Inference"] ∧
      Event.out .imageBanner ∉
        (main countingEngine sampleStat ["trt", "cfg.yaml", "webui"] ["a.png"]).trace :=
  ⟨(((one_shot_banner countingEngine sampleStat "trt" "cfg.yaml" "data" [] [] 0 0
      rfl rfl).1 (by decide)).1 (by decide)).2,
    (one_shot_banner countingEngine sampleStat "trt" "cfg.yaml" "webui" [] ["a.png"] 0 0
      rfl rfl).2 rfl Output.imageBanner (by decide)⟩

/-- The exit code of a run with two arguments is never `-1`. -/
theorem exit_ne_minus_one {σ : Type} (eng : Engine σ) (stat : String → Option Nat)
    (prog configPath target : String) (more stdin : List String) :
    (main eng stat (prog :: configPath :: target :: more) stdin).exit ≠ some (-1) := by
  cases hc : eng.construct configPath with
  | none =>
    rw [main_construct_fails eng stat prog configPath target more stdin hc]
    simp
  | some v0 =>
    cases hl : eng.LoadEngine v0 with
    | none =>
      rw [main_load_fails eng stat prog configPath target more stdin v0 hc hl]
      simp
    | some v =>
      rw [main_loaded eng stat prog configPath target more stdin v0 v hc hl]
      cases (dispatch eng stat v target stdin).returned <;> simp

/-- C13: exit code. The exit code is `-1` exactly when `argc < 3`. In a run with
two arguments whose engine is constructed and loaded and in which the inference
calls of the mode return (the calls for the accepted requests in a session, the
one call of a folder, video or image run), `main` returns `0`, whatever the
calls return. -/
theorem exit_code {σ : Type} (eng : Engine σ) (stat : String → Option Nat)
    (argv stdin : List String) :
    ((main eng stat argv stdin).exit = some (-1) ↔ argv.length < 3) ∧
    (∀ (prog configPath target : String) (more : List String) (v0 v : σ),
      argv = prog :: configPath :: target :: more →
      eng.construct configPath = some v0 → eng.LoadEngine v0 = some v →
      ((target = "webui" ∧ ∃ rs, answers eng v (accepted stdin) = some rs) ∨
        (target ≠ "webui" ∧ isFolder stat target = true ∧
          ∃ v', eng.InferenceFolder v target = some v') ∨
        (target ≠ "webui" ∧ isFolder stat target = false ∧
          isVideoFile target = some true ∧
          ∃ r v', eng.InferenceVideo v target = some (r, v')) ∨
        (target ≠ "webui" ∧ isFolder stat target = false ∧
          isVideoFile target ≠ some true ∧
          ∃ r v', eng.InferenceImage v target = some (r, v'))) →
      (main eng stat argv stdin).exit = some 0) := by
  constructor
  · constructor
    · intro h
      by_contra hlen
      match argv, hlen with
      | [], hlen => exact hlen (by decide)
      | [_], hlen => exact hlen (by simp)
      | [_, _], hlen => exact hlen (by simp)
      | prog :: configPath :: target :: more, _ =>
        exact exit_ne_minus_one eng stat prog configPath target more stdin h
    · intro h
      simp only [main, if_pos h]
  · intro prog configPath target more v0 v hargv hc hl hcalls
    subst hargv
    rcases hcalls with ⟨h1, rs, hrs⟩ | ⟨h1, h2, v', hv⟩ | ⟨h1, h2, h3, r, v', hv⟩ |
      ⟨h1, h2, h3, r, v', hv⟩
    · subst h1
      exact webui_exit_zero eng stat prog configPath more stdin v0 v rs hc hl hrs
    · rw [main_loaded eng stat prog configPath target more stdin v0 v hc hl]
      show (if (dispatch eng stat v target stdin).returned = true then some 0 else none)
        = some (0 : Int)
      rw [dispatch_folder_returned eng stat v target stdin h1 h2, hv]
      rfl
    · rw [main_loaded eng stat prog configPath target more stdin v0 v hc hl]
      show (if (dispatch eng stat v target stdin).returned = true then some 0 else none)
        = some (0 : Int)
      rw [dispatch_video_returned eng stat v target stdin h1 h2 h3, hv]
      rfl
    · rw [main_loaded eng stat prog configPath target more stdin v0 v hc hl]
      show (if (dispatch eng stat v target stdin).returned = true then some 0 else none)
        = some (0 : Int)
      rw [dispatch_image_returned eng stat v target stdin h1 h2 h3, hv]
      rfl

/-- Witness of C13: a video run, a session, and a run without target. -/
theorem exit_code_witness :
    (main countingEngine sampleStat ["trt", "cfg.yaml", "v.mov"] []).exit = some 0 ∧
      (main countingEngine sampleStat ["trt", "cfg.yaml", "webui"] ["a.png", "exit"]).exit
        = some 0 ∧
      (main countingEngine sampleStat ["trt", "cfg.yaml"] []).exit = some (-1) :=
  ⟨(exit_code countingEngine sampleStat ["trt", "cfg.yaml", "v.mov"] []).2
      "trt" "cfg.yaml" "v.mov" [] 0 0 rfl rfl rfl
      (Or.inr (Or.inr (Or.inl ⟨by decide, by decide, by decide, _, _, rfl⟩))),
    (exit_code countingEngine sampleStat ["trt", "cfg.yaml", "webui"] ["a.png", "exit"]).2
      "trt" "cfg.yaml" "webui" [] 0 0 rfl rfl rfl
      (Or.inl ⟨rfl, ["img0:a.png"], by decide⟩),
    (exit_code countingEngine sampleStat ["trt", "cfg.yaml"] []).1.mpr (by decide)⟩

/-! ## Routing inside the session -/

theorem engineCalls_cons_getline (l : Option String) (t : List Event) :
    engineCalls (Event.getline l :: t) = engineCalls t := rfl

theorem engineCalls_cons_reply (r : String) (t : List Event) :
    engineCalls (Event.out (.reply r) :: t) = engineCalls t := rfl

theorem engineCalls_cons_sessionCall (line : String) (t : List Event) :
    engineCalls (sessionCall line :: t) = sessionCall line :: engineCalls t := by
  simp only [engineCalls, List.filter_cons, sessionCall_isInference, if_true]

/-- The inference calls of the loop are the routed calls of the first accepted
requests, in order. -/
theorem webuiLoop_calls_initial {σ : Type} (eng : Engine σ) (v : σ) (lines : List String) :
    engineCalls (webuiLoop eng v lines).trace <+: (accepted lines).map sessionCall := by
  induction lines generalizing v with
  | nil => exact List.nil_prefix
  | cons line rest ih =>
    by_cases hexit : line = "exit"
    · subst hexit
      exact List.nil_prefix
    · by_cases hempty : line = ""
      · subst hempty
        rw [webuiLoop_empty, accepted_empty, Outcome.after_trace, engineCalls_cons_getline]
        exact ih v
      · rw [webuiLoop_request eng v line rest hexit hempty,
          accepted_request line rest hexit hempty, Outcome.after_trace,
          engineCalls_cons_getline, List.map_cons]
        unfold afterRequest
        rw [Outcome.after_trace, engineCalls_cons_sessionCall, List.prefix_cons_inj]
        cases sessionInfer eng v line with
        | none => exact List.nil_prefix
        | some p =>
          obtain ⟨r, v'⟩ := p
          show engineCalls (Event.out (.reply r) :: (webuiLoop eng v' rest).trace) <+: _
          rw [engineCalls_cons_reply]
          exact ih v'

/-- The events of a session: the construction, the load, `READY` and the events
of the loop. -/
theorem main_webui_events {σ : Type} (eng : Engine σ) (stat : String → Option Nat)
    (prog configPath : String) (more stdin : List String) :
    ∀ e ∈ (main eng stat (prog :: configPath :: "webui" :: more) stdin).trace,
      e = .construct configPath ∨ e = .LoadEngine ∨ e = .out .ready ∨ e.inLoop = true := by
  intro e he
  cases hc : eng.construct configPath with
  | none =>
    rw [main_construct_fails eng stat prog configPath "webui" more stdin hc] at he
    simp only [List.mem_singleton] at he
    exact Or.inl he
  | some v0 =>
    cases hl : eng.LoadEngine v0 with
    | none =>
      rw [main_load_fails eng stat prog configPath "webui" more stdin v0 hc hl] at he
      simp only [List.mem_cons, List.mem_singleton, List.not_mem_nil, or_false] at he
      rcases he with he | he
      · exact Or.inl he
      · exact Or.inr (Or.inl he)
    | some v =>
      rw [main_loaded eng stat prog configPath "webui" more stdin v0 v hc hl,
        dispatch_webui] at he
      simp only [Outcome.after_trace, List.mem_cons] at he
      rcases he with he | he | he | he
      · exact Or.inl he
      · exact Or.inr (Or.inl he)
      · exact Or.inr (Or.inr (Or.inl he))
      · exact Or.inr (Or.inr (Or.inr (webuiLoop_inLoop eng v stdin e he)))

/-- The inference calls of a session are the routed calls of the first accepted
requests. -/
theorem main_webui_calls_initial {σ : Type} (eng : Engine σ) (stat : String → Option Nat)
    (prog configPath : String) (more stdin : List String) :
    engineCalls (main eng stat (prog :: configPath :: "webui" :: more) stdin).trace
      <+: (accepted stdin).map sessionCall := by
  cases hc : eng.construct configPath with
  | none =>
    rw [main_construct_fails eng stat prog configPath "webui" more stdin hc]
    exact List.nil_prefix
  | some v0 =>
    cases hl : eng.LoadEngine v0 with
    | none =>
      rw [main_load_fails eng stat prog configPath "webui" more stdin v0 hc hl]
      exact List.nil_prefix
    | some v =>
      rw [main_loaded eng stat prog configPath "webui" more stdin v0 v hc hl, dispatch_webui]
      exact webuiLoop_calls_initial eng v stdin

/-- A session does not depend on the file system. -/
theorem main_webui_stat {σ : Type} (eng : Engine σ) (stat stat' : String → Option Nat)
    (prog configPath : String) (more stdin : List String) :
    main eng stat' (prog :: configPath :: "webui" :: more) stdin
      = main eng stat (prog :: configPath :: "webui" :: more) stdin := by
  cases hc : eng.construct configPath with
  | none =>
    rw [main_construct_fails eng stat prog configPath "webui" more stdin hc,
      main_construct_fails eng stat' prog configPath "webui" more stdin hc]
  | some v0 =>
    cases hl : eng.LoadEngine v0 with
    | none =>
      rw [main_load_fails eng stat prog configPath "webui" more stdin v0 hc hl,
        main_load_fails eng stat' prog configPath "webui" more stdin v0 hc hl]
    | some v =>
      rw [main_loaded eng stat prog configPath "webui" more stdin v0 v hc hl,
        main_loaded eng stat' prog configPath "webui" more stdin v0 v hc hl,
        dispatch_webui, dispatch_webui]

/-- The inference calls of a session whose engine answers every accepted
request. -/
theorem webui_calls {σ : Type} (eng : Engine σ) (stat : String → Option Nat)
    (prog configPath : String) (more stdin : List String) (v0 v : σ) (rs : List String)
    (hc : eng.construct configPath = some v0) (hl : eng.LoadEngine v0 = some v)
    (hrs : answers eng v (accepted stdin) = some rs) :
    engineCalls (main eng stat (prog :: configPath :: "webui" :: more) stdin).trace
      = (accepted stdin).map sessionCall := by
  rw [← engineCalls_withoutReads,
    webui_withoutReads eng stat prog configPath more stdin v0 v rs hc hl hrs]
  show engineCalls (dialogue (accepted stdin) rs) = _
  rw [engineCalls_dialogue _ _ (answers_length eng v (accepted stdin) rs hrs)]

/-- C15: session routing. In a session the inference calls made are, in order,
the calls for the accepted requests (all of them when the engine calls return,
the first of them otherwise): `InferenceVideo` on the line when `isVideoFile` is
`true` of it, `InferenceImage` on the line otherwise, the line being passed
unchanged. Neither `InferenceFolder` nor `stat` (that is `isFolder`) is called,
and the run is the same on every file system: a line naming a directory goes to
image inference, or to video inference when it has a video extension. -/
theorem session_routing {σ : Type} (eng : Engine σ) (stat : String → Option Nat)
    (prog configPath : String) (more stdin : List String) :
    engineCalls (main eng stat (prog :: configPath :: "webui" :: more) stdin).trace
      <+: (accepted stdin).map (fun line =>
        if isVideoFile line = some true then Event.InferenceVideo line
        else Event.InferenceImage line) ∧
    (∀ (v0 v : σ) (rs : List String), eng.construct configPath = some v0 →
      eng.LoadEngine v0 = some v → answers eng v (accepted stdin) = some rs →
      engineCalls (main eng stat (prog :: configPath :: "webui" :: more) stdin).trace
        = (accepted stdin).map (fun line =>
          if isVideoFile line = some true then Event.InferenceVideo line
          else Event.InferenceImage line)) ∧
    (∀ p, Event.InferenceFolder p ∉
      (main eng stat (prog :: configPath :: "webui" :: more) stdin).trace) ∧
    (∀ p, Event.stat p ∉ (main eng stat (prog :: configPath :: "webui" :: more) stdin).trace) ∧
    (∀ stat' : String → Option Nat,
      main eng stat' (prog :: configPath :: "webui" :: more) stdin
        = main eng stat (prog :: configPath :: "webui" :: more) stdin) := by
  refine ⟨main_webui_calls_initial eng stat prog configPath more stdin, ?_, ?_, ?_, ?_⟩
  · intro v0 v rs hc hl hrs
    exact webui_calls eng stat prog configPath more stdin v0 v rs hc hl hrs
  · intro p hmem
    rcases main_webui_events eng stat prog configPath more stdin _ hmem with h | h | h | h
    · exact absurd h (by simp)
    · exact absurd h (by simp)
    · exact absurd h (by simp)
    · exact absurd h (by simp [Event.inLoop])
  · intro p hmem
    rcases main_webui_events eng stat prog configPath more stdin _ hmem with h | h | h | h
    · exact absurd h (by simp)
    · exact absurd h (by simp)
    · exact absurd h (by simp)
    · exact absurd h (by simp [Event.inLoop])
  · intro stat'
    exact main_webui_stat eng stat stat' prog configPath more stdin

/-- Witness of C15: a session that is sent the directories `data` and
`clips.mp4`. -/
theorem session_routing_witness :
    answers countingEngine 0 (accepted ["data", "clips.mp4", "exit"])
        = some ["img0:data", "vid1:clips.mp4"] ∧
      isFolder sampleStat "data" = true ∧ isFolder sampleStat "clips.mp4" = true ∧
      engineCalls (main countingEngine sampleStat ["trt", "cfg.yaml", "webui"]
          ["data", "clips.mp4", "exit"]).trace
        = (accepted ["data", "clips.mp4", "exit"]).map (fun line =>
          if isVideoFile line = some true then Event.InferenceVideo line
          else Event.InferenceImage line) :=
  ⟨by decide, by decide, by decide,
    (session_routing countingEngine sampleStat "trt" "cfg.yaml" []
      ["data", "clips.mp4", "exit"]).2.1 0 0 ["img0:data", "vid1:clips.mp4"]
      rfl rfl (by decide)⟩

/-! ## A video extension on a directory -/

/-- Counterexample to C16 as stated: the target `clips.mp4` is not `webui` and has a
video extension, and it is a directory; the run prints the folder banner and
calls `InferenceFolder`, not `InferenceVideo`. -/
theorem video_extension_does_not_win :
    ¬ ∀ (stat : String → Option Nat) (target : String),
      target ≠ "webui" → isVideoFile target = some true →
      stdoutOf (main countingEngine stat ["trt", "cfg.yaml", target] []).trace
          = ["Mode: Single Video Inference"] ∧
        engineCalls (main countingEngine stat ["trt", "cfg.yaml", target] []).trace
          = [.InferenceVideo target] := by
  intro h
  have h1 := (h sampleStat "clips.mp4" (by decide) (by decide)).2
  exact absurd h1 (by decide)

/-- C16, amended: in one-shot mode the directory predicate is checked before the
extension sets. For a target other than `webui` of which `isVideoFile` is `true`,
in a run whose engine is constructed and loaded, `stat` is called first; when
`isFolder` is `false` the run is a single-video inference (the video banner, one
`InferenceVideo` call), and when `isFolder` is `true` it is a folder inference
(the folder banner, one `InferenceFolder` call). -/
theorem video_target_dispatch {σ : Type} (eng : Engine σ) (stat : String → Option Nat)
    (prog configPath target : String) (more stdin : List String) (v0 v : σ)
    (hc : eng.construct configPath = some v0) (hl : eng.LoadEngine v0 = some v)
    (hw : target ≠ "webui") (hv : isVideoFile target = some true) :
    (isFolder stat target = false →
      (main eng stat (prog :: configPath :: target :: more) stdin).trace =
          [.construct configPath, .LoadEngine, .stat target, .out .videoBanner,
            .InferenceVideo target] ∧
        stdoutOf (main eng stat (prog :: configPath :: target :: more) stdin).trace =
          ["Mode: Single Video Inference"] ∧
        engineCalls (main eng stat (prog :: configPath :: target :: more) stdin).trace =
          [.InferenceVideo target]) ∧
    (isFolder stat target = true →
      (main eng stat (prog :: configPath :: target :: more) stdin).trace =
          [.construct configPath, .LoadEngine, .stat target, .out .folderBanner,
            .InferenceFolder target] ∧
        stdoutOf (main eng stat (prog :: configPath :: target :: more) stdin).trace =
          ["Mode: Folder Inference"] ∧
        engineCalls (main eng stat (prog :: configPath :: target :: more) stdin).trace =
          [.InferenceFolder target]) := by
  rw [main_loaded eng stat prog configPath target more stdin v0 v hc hl]
  constructor
  · intro hf
    show _ :: _ :: (dispatch eng stat v target stdin).trace = _ ∧
      stdoutOf (_ :: _ :: (dispatch eng stat v target stdin).trace) = _ ∧
      engineCalls (_ :: _ :: (dispatch eng stat v target stdin).trace) = _
    rw [dispatch_video eng stat v target stdin hw hf hv]
    exact ⟨rfl, rfl, rfl⟩
  · intro hf
    show _ :: _ :: (dispatch eng stat v target stdin).trace = _ ∧
      stdoutOf (_ :: _ :: (dispatch eng stat v target stdin).trace) = _ ∧
      engineCalls (_ :: _ :: (dispatch eng stat v target stdin).trace) = _
    rw [dispatch_folder eng stat v target stdin hw hf]
    exact ⟨rfl, rfl, rfl⟩

/-- Witness of the amended C16: the video file `v.mov` and the directory
`clips.mp4`. -/
theorem video_target_dispatch_witness :
    engineCalls (main countingEngine sampleStat ["trt", "cfg.yaml", "v.mov"] []).trace =
        [.InferenceVideo "v.mov"] ∧
      engineCalls (main countingEngine sampleStat ["trt", "cfg.yaml", "clips.mp4"] []).trace =
        [.InferenceFolder "clips.mp4"] :=
  ⟨((video_target_dispatch countingEngine sampleStat "trt" "cfg.yaml" "v.mov" [] [] 0 0
      rfl rfl (by decide) (by decide)).1 (by decide)).2.2,
    ((video_target_dispatch countingEngine sampleStat "trt" "cfg.yaml" "clips.mp4" [] [] 0 0
      rfl rfl (by decide) (by decide)).2 (by decide)).2.2⟩

/-! ## An inference call that does not return -/

theorem stateAfter_cons_some {σ : Type} (eng : Engine σ) (v v' : σ) (line r : String)
    (rest : List String) (hi : sessionInfer eng v line = some (r, v')) :
    stateAfter eng v (line :: rest) = stateAfter eng v' rest := by
  simp only [stateAfter, hi]

theorem withoutReads_cons_getline (l : Option String) (t : List Event) :
    withoutReads (Event.getline l :: t) = withoutReads t := rfl

theorem withoutReads_cons_reply (r : String) (t : List Event) :
    withoutReads (Event.out (.reply r) :: t) = Event.out (.reply r) :: withoutReads t := rfl

theorem withoutReads_cons_sessionCall (line : String) (t : List Event) :
    withoutReads (sessionCall line :: t) = sessionCall line :: withoutReads t := by
  simp [withoutReads, List.filter_cons, sessionCall_isRead]

/-- The loop on an input whose line `line` is a request that the engine does not
answer, the requests before it being answered with `rs`: the loop is left at
that call, and the lines after it do not matter. -/
theorem webuiLoop_fail {σ : Type} (eng : Engine σ) (v v' : σ) (pre : List String)
    (line : String) (rest rs : List String)
    (hpre : ∀ l ∈ pre, l ≠ "exit") (hexit : line ≠ "exit") (hempty : line ≠ "")
    (hrs : answers eng v (accepted pre) = some rs)
    (hst : stateAfter eng v (accepted pre) = some v')
    (hfail : sessionInfer eng v' line = none) :
    (webuiLoop eng v (pre ++ line :: rest)).returned = false ∧
      withoutReads (webuiLoop eng v (pre ++ line :: rest)).trace
        = dialogue (accepted pre) rs ++ [sessionCall line] ∧
      webuiLoop eng v (pre ++ line :: rest) = webuiLoop eng v (pre ++ [line]) := by
  induction pre generalizing v rs with
  | nil =>
    simp only [accepted_nil, answers, stateAfter, Option.some.injEq] at hrs hst
    subst hrs
    subst hst
    simp only [List.nil_append, webuiLoop_request eng v line _ hexit hempty, afterRequest,
      hfail]
    refine ⟨rfl, ?_, trivial⟩
    simp only [Outcome.after_trace, withoutReads_cons_getline, withoutReads_cons_sessionCall]
    rfl
  | cons l pre ih =>
    have hl : l ≠ "exit" := hpre l (by simp)
    have hpre' : ∀ x ∈ pre, x ≠ "exit" := fun x hx => hpre x (by simp [hx])
    by_cases hle : l = ""
    · subst hle
      rw [accepted_empty] at hrs hst
      obtain ⟨h1, h2, h3⟩ := ih v rs hpre' hrs hst
      simp only [List.cons_append, webuiLoop_empty, Outcome.after_returned,
        Outcome.after_trace, withoutReads_cons_getline]
      exact ⟨h1, h2, by rw [h3]⟩
    · rw [accepted_request l pre hl hle] at hrs hst
      obtain ⟨r, v1, rs', hi, ha, hrs'⟩ := answers_cons_eq_some eng v l (accepted pre) rs hrs
      rw [stateAfter_cons_some eng v v1 l r (accepted pre) hi] at hst
      obtain ⟨h1, h2, h3⟩ := ih v1 rs' hpre' ha hst
      subst hrs'
      simp only [List.cons_append, webuiLoop_request eng v l _ hl hle, afterRequest, hi,
        Outcome.after_returned, Outcome.after_trace, withoutReads_cons_getline,
        withoutReads_cons_sessionCall, withoutReads_cons_reply,
        accepted_request l pre hl hle]
      refine ⟨h1, ?_, by rw [h3]⟩
      rw [h2]
      rfl

theorem stdoutOf_append (a b : List Event) : stdoutOf (a ++ b) = stdoutOf a ++ stdoutOf b := by
  induction a with
  | nil => rfl
  | cons e es ih => cases e <;> simp_all [stdoutOf]

theorem engineCalls_append (a b : List Event) :
    engineCalls (a ++ b) = engineCalls a ++ engineCalls b := by
  simp [engineCalls]

/-- Counterexample to C17 as stated: the engine call for the accepted request
`corrupt.png` does not return, and the run ends at that call; the later accepted
request `a.png` is neither read nor dispatched nor answered. -/
theorem throwing_call_ends_session :
    accepted ["corrupt.png", "a.png"] = ["corrupt.png", "a.png"] ∧
      sessionInfer brittleEngine 0 "corrupt.png" = none ∧
      main brittleEngine sampleStat ["trt", "cfg.yaml", "webui"] ["corrupt.png", "a.png"] =
        ⟨[.construct "cfg.yaml", .LoadEngine, .out .ready, .getline (some "corrupt.png"),
          .InferenceImage "corrupt.png"], none⟩ ∧
      Event.getline (some "a.png") ∉
        (main brittleEngine sampleStat ["trt", "cfg.yaml", "webui"]
          ["corrupt.png", "a.png"]).trace ∧
      Event.InferenceImage "a.png" ∉
        (main brittleEngine sampleStat ["trt", "cfg.yaml", "webui"]
          ["corrupt.png", "a.png"]).trace ∧
      stdoutOf (main brittleEngine sampleStat ["trt", "cfg.yaml", "webui"]
        ["corrupt.png", "a.png"]).trace = ["READY"] := by
  decide

/-- C17, amended: in a session whose engine is constructed and loaded, calls that
return, whatever string they return, never end the session: when all the calls
for the accepted requests return every accepted request gets its reply and
`main` returns `0`. A call that does not return ends the session: when the
requests before `line` are answered with `rs` and the call for the request
`line` throws, the run ends at that call without returning, standard output is
`READY` and `rs`, the inference calls are those of the requests before `line`
and the one for `line`, and the lines after `line` are never read. -/
theorem session_and_failing_call {σ : Type} (eng : Engine σ) (stat : String → Option Nat)
    (prog configPath : String) (more stdin : List String) (v0 v : σ)
    (hc : eng.construct configPath = some v0) (hl : eng.LoadEngine v0 = some v) :
    (∀ rs, answers eng v (accepted stdin) = some rs →
      stdoutOf (main eng stat (prog :: configPath :: "webui" :: more) stdin).trace
          = "READY" :: rs ∧
        rs.length = (accepted stdin).length ∧
        (main eng stat (prog :: configPath :: "webui" :: more) stdin).exit = some 0) ∧
    (∀ (pre : List String) (line : String) (rest rs : List String) (v' : σ),
      stdin = pre ++ line :: rest → (∀ l ∈ pre, l ≠ "exit") → line ≠ "exit" → line ≠ "" →
      answers eng v (accepted pre) = some rs → stateAfter eng v (accepted pre) = some v' →
      sessionInfer eng v' line = none →
      (main eng stat (prog :: configPath :: "webui" :: more) stdin).exit = none ∧
        stdoutOf (main eng stat (prog :: configPath :: "webui" :: more) stdin).trace
          = "READY" :: rs ∧
        engineCalls (main eng stat (prog :: configPath :: "webui" :: more) stdin).trace
          = (accepted pre).map sessionCall ++ [sessionCall line] ∧
        main eng stat (prog :: configPath :: "webui" :: more) stdin
          = main eng stat (prog :: configPath :: "webui" :: more) (pre ++ [line])) := by
  constructor
  · intro rs hrs
    exact ⟨webui_stdout eng stat prog configPath more stdin v0 v rs hc hl hrs,
      answers_length eng v (accepted stdin) rs hrs,
      webui_exit_zero eng stat prog configPath more stdin v0 v rs hc hl hrs⟩
  · intro pre line rest rs v' hstdin hpre hexit hempty hrs hst hfail
    subst hstdin
    obtain ⟨h1, h2, h3⟩ :=
      webuiLoop_fail eng v v' pre line rest rs hpre hexit hempty hrs hst hfail
    have hlen := answers_length eng v (accepted pre) rs hrs
    have hwr : withoutReads
        (main eng stat (prog :: configPath :: "webui" :: more) (pre ++ line :: rest)).trace
        = [.construct configPath, .LoadEngine, .out .ready] ++
            (dialogue (accepted pre) rs ++ [sessionCall line]) := by
      rw [main_loaded eng stat prog configPath "webui" more _ v0 v hc hl, dispatch_webui,
        ← h2]
      rfl
    refine ⟨?_, ?_, ?_, ?_⟩
    · rw [main_loaded eng stat prog configPath "webui" more _ v0 v hc hl, dispatch_webui]
      simp only [Outcome.after_returned, h1]
      rfl
    · rw [← stdoutOf_withoutReads, hwr, stdoutOf_append, stdoutOf_append,
        stdoutOf_dialogue _ _ hlen, stdoutOf_sessionCall_cons]
      show "READY" :: (rs ++ []) = _
      rw [List.append_nil]
    · rw [← engineCalls_withoutReads, hwr, engineCalls_append, engineCalls_append,
        engineCalls_dialogue _ _ hlen, engineCalls_cons_sessionCall]
      rfl
    · rw [main_loaded eng stat prog configPath "webui" more _ v0 v hc hl,
        main_loaded eng stat prog configPath "webui" more _ v0 v hc hl,
        dispatch_webui, dispatch_webui, h3]

/-- Witness of the amended C17: one request that is answered, one on which the
engine throws, and one more line. -/
theorem session_and_failing_call_witness :
    sessionInfer brittleEngine 1 "corrupt.png" = none ∧
      (main brittleEngine sampleStat ["trt", "cfg.yaml", "webui"]
        ["a.png", "corrupt.png", "b.png"]).exit = none ∧
      stdoutOf (main brittleEngine sampleStat ["trt", "cfg.yaml", "webui"]
        ["a.png", "corrupt.png", "b.png"]).trace = ["READY", "img0:a.png"] ∧
      stdoutOf (main brittleEngine sampleStat ["trt", "cfg.yaml", "webui"]
        ["a.png", "b.png"]).trace = ["READY", "img0:a.png", "img1:b.png"] :=
  ⟨by decide,
    ((session_and_failing_call brittleEngine sampleStat "trt" "cfg.yaml" []
      ["a.png", "corrupt.png", "b.png"] 0 0 rfl rfl).2 ["a.png"] "corrupt.png" ["b.png"]
      ["img0:a.png"] 1 rfl (by decide) (by decide) (by decide) (by decide) (by decide)
      (by decide)).1,
    ((session_and_failing_call brittleEngine sampleStat "trt" "cfg.yaml" []
      ["a.png", "corrupt.png", "b.png"] 0 0 rfl rfl).2 ["a.png"] "corrupt.png" ["b.png"]
      ["img0:a.png"] 1 rfl (by decide) (by decide) (by decide) (by decide) (by decide)
      (by decide)).2.1,
    ((session_and_failing_call brittleEngine sampleStat "trt" "cfg.yaml" []
      ["a.png", "b.png"] 0 0 rfl rfl).1 ["img0:a.png", "img1:b.png"] (by decide)).1⟩

/-! ## One-shot run and session on the same path -/

/-- The loop on a single request line. -/
theorem webuiLoop_single {σ : Type} (eng : Engine σ) (v : σ) (path : String)
    (hexit : path ≠ "exit") (hempty : path ≠ "") :
    engineCalls (webuiLoop eng v [path]).trace = [sessionCall path] := by
  rw [webuiLoop_request eng v path [] hexit hempty, Outcome.after_trace,
    engineCalls_cons_getline]
  unfold afterRequest
  rw [Outcome.after_trace, engineCalls_cons_sessionCall]
  cases sessionInfer eng v path with
  | none => rfl
  | some p => rfl

/-- The inference call of a one-shot run on a path that is not a directory. -/
theorem dispatch_calls_off_directory {σ : Type} (eng : Engine σ)
    (stat : String → Option Nat) (v : σ) (path : String) (stdin : List String)
    (hw : path ≠ "webui") (hf : isFolder stat path = false) :
    engineCalls (dispatch eng stat v path stdin).trace = [sessionCall path] ∧
      stdoutOf (dispatch eng stat v path stdin).trace =
        [if isVideoFile path = some true then "Mode: Single Video Inference"
          else "Mode: Single Image Inference"] ∧
      (dispatch eng stat v path stdin).returned = (sessionInfer eng v path).isSome := by
  by_cases hv : isVideoFile path = some true
  · rw [dispatch_video eng stat v path stdin hw hf hv,
      dispatch_video_returned eng stat v path stdin hw hf hv]
    simp only [sessionCall, sessionInfer, if_pos hv]
    exact ⟨rfl, rfl, trivial⟩
  · rw [dispatch_image eng stat v path stdin hw hf hv,
      dispatch_image_returned eng stat v path stdin hw hf hv]
    simp only [sessionCall, sessionInfer, if_neg hv]
    exact ⟨rfl, rfl, trivial⟩

/-- C18: one-shot and session dispatch agree off directories. For a path that is
not empty, not `webui`, not `exit` and of which `isFolder` is `false`, with an
engine that is constructed and loaded, the one-shot run on the path and the
session that is sent the path make the same single inference call:
`InferenceVideo` on the path when `isVideoFile` is `true` of it, `InferenceImage`
on the path otherwise; in a longer session that call is among the calls made.
When the call returns `r` the two runs return `0` and differ in their output:
the session writes `READY` and `r`, the one-shot run writes the banner of its
mode and not `r`. -/
theorem one_shot_agrees_with_session {σ : Type} (eng : Engine σ)
    (stat : String → Option Nat) (prog configPath path : String)
    (more more' stdin : List String) (v0 v : σ)
    (hc : eng.construct configPath = some v0) (hl : eng.LoadEngine v0 = some v)
    (hempty : path ≠ "") (hw : path ≠ "webui") (hexit : path ≠ "exit")
    (hf : isFolder stat path = false) :
    engineCalls (main eng stat (prog :: configPath :: path :: more) stdin).trace =
        [if isVideoFile path = some true then Event.InferenceVideo path
          else Event.InferenceImage path] ∧
      engineCalls (main eng stat (prog :: configPath :: "webui" :: more') [path]).trace =
        [if isVideoFile path = some true then Event.InferenceVideo path
          else Event.InferenceImage path] ∧
      (∀ (lines rs : List String), path ∈ accepted lines →
        answers eng v (accepted lines) = some rs →
        (if isVideoFile path = some true then Event.InferenceVideo path
          else Event.InferenceImage path) ∈
          engineCalls (main eng stat (prog :: configPath :: "webui" :: more') lines).trace) ∧
      (∀ (r : String) (v' : σ),
        (if isVideoFile path = some true then eng.InferenceVideo v path
          else eng.InferenceImage v path) = some (r, v') →
        stdoutOf (main eng stat (prog :: configPath :: "webui" :: more') [path]).trace =
            ["READY", r] ∧
          stdoutOf (main eng stat (prog :: configPath :: path :: more) stdin).trace =
            [if isVideoFile path = some true then "Mode: Single Video Inference"
              else "Mode: Single Image Inference"] ∧
          (main eng stat (prog :: configPath :: "webui" :: more') [path]).exit = some 0 ∧
          (main eng stat (prog :: configPath :: path :: more) stdin).exit = some 0) := by
  obtain ⟨hd1, hd2, hd3⟩ := dispatch_calls_off_directory eng stat v path stdin hw hf
  have hone : engineCalls (main eng stat (prog :: configPath :: path :: more) stdin).trace
      = [sessionCall path] := by
    rw [main_loaded eng stat prog configPath path more stdin v0 v hc hl]
    exact hd1
  have hses : engineCalls
      (main eng stat (prog :: configPath :: "webui" :: more') [path]).trace
      = [sessionCall path] := by
    rw [main_loaded eng stat prog configPath "webui" more' [path] v0 v hc hl, dispatch_webui]
    exact webuiLoop_single eng v path hexit hempty
  refine ⟨hone, hses, ?_, ?_⟩
  · intro lines rs hmem hrs
    rw [webui_calls eng stat prog configPath more' lines v0 v rs hc hl hrs]
    exact List.mem_map.mpr ⟨path, hmem, rfl⟩
  · intro r v' hr
    have hinf : sessionInfer eng v path = some (r, v') := hr
    have hacc : accepted [path] = [path] := by
      rw [accepted_request path [] hexit hempty, accepted_nil]
    have hrs : answers eng v (accepted [path]) = some [r] := by
      rw [hacc, answers_cons_some eng v v' path r [] hinf]
      rfl
    refine ⟨webui_stdout eng stat prog configPath more' [path] v0 v [r] hc hl hrs, ?_,
      webui_exit_zero eng stat prog configPath more' [path] v0 v [r] hc hl hrs, ?_⟩
    · rw [main_loaded eng stat prog configPath path more stdin v0 v hc hl]
      exact hd2
    · rw [main_loaded eng stat prog configPath path more stdin v0 v hc hl]
      show (if (dispatch eng stat v path stdin).returned = true then some 0 else none)
        = some (0 : Int)
      rw [hd3, hinf]
      rfl

/-- Witness of C18: the regular file `a.png`, as a target and as a request. -/
theorem one_shot_agrees_with_session_witness :
    isFolder sampleStat "a.png" = false ∧
      engineCalls (main countingEngine sampleStat ["trt", "cfg.yaml", "a.png"] []).trace =
        [Event.InferenceImage "a.png"] ∧
      engineCalls (main countingEngine sampleStat ["trt", "cfg.yaml", "webui"] ["a.png"]).trace =
        [Event.InferenceImage "a.png"] ∧
      stdoutOf (main countingEngine sampleStat ["trt", "cfg.yaml", "webui"] ["a.png"]).trace =
        ["READY", "img0:a.png"] ∧
      stdoutOf (main countingEngine sampleStat ["trt", "cfg.yaml", "a.png"] []).trace =
        ["Mode: Single Image Inference"] :=
  ⟨by decide,
    (one_shot_agrees_with_session countingEngine sampleStat "trt" "cfg.yaml" "a.png"
      [] [] [] 0 0 rfl rfl (by decide) (by decide) (by decide) (by decide)).1,
    (one_shot_agrees_with_session countingEngine sampleStat "trt" "cfg.yaml" "a.png"
      [] [] [] 0 0 rfl rfl (by decide) (by decide) (by decide) (by decide)).2.1,
    ((one_shot_agrees_with_session countingEngine sampleStat "trt" "cfg.yaml" "a.png"
      [] [] [] 0 0 rfl rfl (by decide) (by decide) (by decide) (by decide)).2.2.2
        "img0:a.png" 1 (by decide)).1,
    ((one_shot_agrees_with_session countingEngine sampleStat "trt" "cfg.yaml" "a.png"
      [] [] [] 0 0 rfl rfl (by decide) (by decide) (by decide) (by decide)).2.2.2
        "img0:a.png" 1 (by decide)).2.1⟩

end Trt
